import Mathlib

/-!
# Verification of the Deriv-Guardian transformation / fraud-injection pipeline

Shallow embedding of the core pipeline of the repository
(`pipeline/parse_patterns.py`, `pipeline/transform.py`,
`pipeline/inject_patterns.py`, `pipeline/run_pipeline.py`) and proofs about
the claims on it.

Modelling conventions:
* pandas `DataFrame`s are lists of records; row order is list order.
* Money amounts and rates are `ℚ` (the Python floats are IEEE doubles; no
  claim here depends on rounding of the *arithmetic*, and where a Python
  float constant is exact or provably agrees with the rational value this is
  noted at the definition).
* Timestamps are `ℤ`, measured in seconds (`pd.Timedelta(seconds=…)`,
  `minutes=…`, `hours=…`, `days=…` become `×1`, `×60`, `×3600`, `×86400`).
* Numeric parts of formatted ids (`T_%07d`, `CM_%07d`, `W_%05d`) are `ℕ`;
  within the padding width the numeric order coincides with the string order
  the code relies on.
* `numpy.random.Generator` is an abstract state `σ` together with one
  operation per method the code calls (`random`, `integers`, `uniform`,
  `choice`).  `RngWF` captures the output-range guarantees of the numpy
  methods; theorems that need a range fact take `RngWF` as a hypothesis.
-/

/-! ## Configuration constants (`pipeline/config.py`) -/

/-- `COMMISSION_RATE = 0.05` (exactly representable as a double). -/
def COMMISSION_RATE : ℚ := 5 / 100

/-- `COMMISSION_DELAY_MINUTES = 60`. -/
def COMMISSION_DELAY_MINUTES : ℤ := 60

/-- `OPPOSITE_TRADE_PROBABILITY = 0.40` (the configurable injection
probability; `inject_opposite_trading` reads this constant).  Written with
`mkRat` (the same rational as `40 / 100`) so that concrete runs reduce in
the kernel. -/
def OPPOSITE_TRADE_PROBABILITY : ℚ := mkRat 40 100

/-- `BONUS_ABUSE_DEPOSIT = 50.0`. -/
def BONUS_ABUSE_DEPOSIT : ℚ := 50

/-- `BONUS_ABUSE_WITHDRAW_DELAY_HOURS = 24`. -/
def BONUS_ABUSE_WITHDRAW_DELAY_HOURS : ℤ := 24

/-- `INSTRUMENTS` list from `config.py`. -/
def INSTRUMENTS : List String :=
  ["EURUSD", "GBPJPY", "BTCUSD", "XAUUSD", "US100", "AUDCAD", "USDJPY"]

/-! ## Records (rows of the tables of §3 of the spec) -/

/-- One row of the trades table (`build_trades` output columns, with the two
injection flag columns that `inject_opposite_trading` / `inject_bonus_abuse`
create; they are initialised to `false` exactly as the column-creation
assignments in the code do). `trade_id` is the numeric part of `T_%07d`. -/
structure Trade where
  trade_id : ℕ
  timestamp : ℤ
  client_id : String
  partner_id : String
  instrument : String
  direction : String
  trade_volume : ℚ
  currency : String
  is_fraudulent : Bool
  is_opposite_trade : Bool
  is_bonus_abuse : Bool
deriving DecidableEq, Repr

instance : Inhabited Trade :=
  ⟨⟨0, 0, "", "", "", "", 0, "", false, false, false⟩⟩

/-- The two columns of the partners table that the injection stage reads
(`partners["is_fraudulent"]`, `partners["partner_id"]`); the remaining
columns built by `build_partners` are never consulted by the injectors. -/
structure Partner where
  partner_id : String
  is_fraudulent : Bool
deriving DecidableEq, Repr

/-- One row of the commissions table (`build_commissions` output columns).
`commission_id` is the numeric part of `CM_%07d`. -/
structure Commission where
  commission_id : ℕ
  timestamp : ℤ
  client_id : String
  partner_id : String
  trade_id : ℕ
  commission_amount : ℚ
  currency : String
  is_fraudulent : Bool
deriving DecidableEq, Repr

/-- One row of the withdrawals table built by `inject_bonus_abuse`.
`withdrawal_id` is the numeric part of `W_%05d`. -/
structure Withdrawal where
  withdrawal_id : ℕ
  timestamp : ℤ
  client_id : String
  partner_id : String
  amount : ℚ
  is_bonus_abuse : Bool
deriving DecidableEq, Repr

/-- One row of the referrals table (`build_referrals` output columns). -/
structure Referral where
  partner_id : String
  client_id : String
  first_trade_date : ℤ
  last_trade_date : ℤ
  num_trades : ℕ
  total_volume : ℚ
  total_commissions : ℚ
deriving DecidableEq, Repr

/-! ## Abstract model of `numpy.random.Generator` -/

/-- The generator methods used by the pipeline.  A value of `RngModel σ`
fixes, for every state, the value produced and the successor state:
* `random`    — `rng.random()`;
* `intRange`  — `rng.integers(lo, hi)` (half-open, as in numpy);
* `uniform`   — `rng.uniform(a, b)`;
* `choice1`   — `rng.choice(pool)` for a single element;
* `choiceN`   — `rng.choice(pool, size=n, replace=False)`. -/
structure RngModel (σ : Type) where
  random : σ → ℚ × σ
  intRange : ℤ → ℤ → σ → ℤ × σ
  uniform : ℚ → ℚ → σ → ℚ × σ
  choice1 : List String → σ → String × σ
  choiceN : List String → ℕ → σ → List String × σ

/-- Output-range guarantees of the numpy generator methods. -/
structure RngWF {σ : Type} (M : RngModel σ) : Prop where
  random_nonneg : ∀ s, 0 ≤ (M.random s).1
  random_lt_one : ∀ s, (M.random s).1 < 1
  intRange_lb : ∀ lo hi s, lo < hi → lo ≤ (M.intRange lo hi s).1
  intRange_ub : ∀ lo hi s, lo < hi → (M.intRange lo hi s).1 < hi
  uniform_lb : ∀ a b s, a ≤ b → a ≤ (M.uniform a b s).1
  uniform_ub : ∀ a b s, a ≤ b → (M.uniform a b s).1 ≤ b
  choiceN_length : ∀ l n s, n ≤ l.length → ((M.choiceN l n s).1).length = n

/-- A degenerate but well-formed generator model used to instantiate
theorems on concrete inputs: every draw returns the lower end of its range
(and `choice` takes a prefix). -/
def unitRng : RngModel Unit where
  random := fun s => (0, s)
  intRange := fun lo _ s => (lo, s)
  uniform := fun a _ s => (a, s)
  choice1 := fun l s => (l.headD "", s)
  choiceN := fun l n s => (l.take n, s)

/-! ## List helpers shared by the embedding -/

/-- Row of a trades list at position `i` (out of range gives the default
row; all in-range uses are guarded by length facts). -/
def getT (l : List Trade) (i : ℕ) : Trade :=
  l.getD i default

/-- `df.at[i, col] = v` on a trades list: update row `i` in place. -/
def modAt (l : List Trade) (i : ℕ) (f : Trade → Trade) : List Trade :=
  l.set i (f (getT l i))

/-- Insertion step of the sort used to model `sort_values` / `nlargest`
(pandas' sort order; the claims proved below never depend on the order of
equal keys). -/
def insertLe {α : Type} (le : α → α → Bool) (a : α) : List α → List α
  | [] => [a]
  | b :: r => if le a b then a :: b :: r else b :: insertLe le a r

/-- Insertion sort with comparison `le`. -/
def sortLe {α : Type} (le : α → α → Bool) : List α → List α
  | [] => []
  | a :: r => insertLe le a (sortLe le r)

/-- Walk a list in consecutive non-overlapping pairs
(`for i in range(0, len(indices) - 1, 2)`); an odd element out is dropped. -/
def pairUp : List ℕ → List (ℕ × ℕ)
  | a :: b :: r => (a, b) :: pairUp r
  | _ => []

/-- The `trade_id` column of a trades list. -/
def idsOf (l : List Trade) : List ℕ :=
  l.map (fun t => t.trade_id)

/-- First-occurrence deduplication with an explicit `seen` accumulator
(models the *set* of values Python builds; Python's set iteration order is
hash-salt dependent, so wherever the code iterates over a set the claims
below only use order-independent facts, and this definition fixes
first-occurrence order).  Structural recursion so that concrete instances
evaluate in the kernel. -/
def firstDedupAux {α : Type} [DecidableEq α] (seen : List α) : List α → List α
  | [] => []
  | a :: r => if a ∈ seen then firstDedupAux seen r else a :: firstDedupAux (a :: seen) r

/-- The distinct values of a list, first occurrence first. -/
def firstDedup {α : Type} [DecidableEq α] (l : List α) : List α :=
  firstDedupAux [] l

/-- Lexicographic strict order on char lists (Python string `<`). -/
def strLtList : List Char → List Char → Bool
  | [], [] => false
  | [], _ :: _ => true
  | _ :: _, [] => false
  | a :: r, b :: t => if a.val < b.val then true else if b.val < a.val then false else strLtList r t

/-- Python string `<` (code-point lexicographic). -/
def strLtB (a b : String) : Bool :=
  strLtList a.data b.data

/-- Python string `<=`. -/
def strLeB (a b : String) : Bool :=
  !(strLtB b a)

/-- `min` of a list of timestamp strings (Python `min`; `""` unused: callers
guard against the empty list). -/
def strMinL : List String → String
  | [] => ""
  | x :: r => r.foldl (fun m y => if strLtB y m then y else m) x

/-- `max` of a list of timestamp strings (Python `max`). -/
def strMaxL : List String → String
  | [] => ""
  | x :: r => r.foldl (fun m y => if strLtB m y then y else m) x

/-! ## Ring parser (`pipeline/parse_patterns.py`) -/

/-- Python `s.split(sep)` for a one-character separator, over the char
list (structural, so concrete parses evaluate in the kernel; Lean's own
`String.splitOn` recurses on byte positions and does not). -/
def splitCharAux (sep : Char) : List Char → List Char → List (List Char)
  | [], cur => [cur.reverse]
  | c :: rest, cur =>
    if c = sep then cur.reverse :: splitCharAux sep rest []
    else splitCharAux sep rest (c :: cur)

/-- Python `s.split(sep)` (one-character separator). -/
def splitChar (sep : Char) (s : String) : List String :=
  (splitCharAux sep s.data []).map (fun cs => ⟨cs⟩)

/-- Python `line.split(",")`. -/
def splitComma (s : String) : List String :=
  splitChar ',' s

/-- Python `s.strip()` (whitespace on both ends). -/
def pyStrip (s : String) : String :=
  ⟨((s.data.dropWhile Char.isWhitespace).reverse.dropWhile Char.isWhitespace).reverse⟩

/-- Python `s.startswith(p)`. -/
def pyStartsWith (s p : String) : Bool :=
  p.data.isPrefixOf s.data

/-- The first `n` characters dropped (Python `s[n:]`). -/
def pyDrop (s : String) (n : ℕ) : String :=
  ⟨s.data.drop n⟩

/-- Longest prefix of characters satisfying `p`. -/
def pyTakeWhile (p : Char → Bool) (s : String) : String :=
  ⟨s.data.takeWhile p⟩

/-- Python truthiness test of a string. -/
def pyIsEmpty (s : String) : Bool :=
  s.data.isEmpty


/-- One parsed transaction record inside a ring block (`_TX_FIELDS`). -/
structure TxRec where
  timestamp : String
  from_bank : String
  from_account : String
  to_bank : String
  to_account : String
  amount_received : ℚ
  recv_currency : String
  amount_paid : ℚ
  pay_currency : String
  payment_format : String
  is_laundering : ℤ
deriving DecidableEq, Repr

/-- Digits of a decimal literal to a number. -/
def digitsVal (s : List Char) : ℕ :=
  s.foldl (fun n c => n * 10 + (c.toNat - 48)) 0

/-- All characters are ASCII digits. -/
def allDigits (s : List Char) : Bool :=
  s.all (fun c => c.isDigit)

/-- Python `float(s)` on the plain decimal literals that occur in the
ledger: optional sign, digits, optional fractional part; anything else
(including empty or non-numeric text) fails.  Python additionally accepts
exponents, `inf`/`nan` and underscores — none of which occur in the data
and none of which a claim depends on. -/
def pyFloat (s : String) : Option ℚ :=
  let t := pyStrip s
  let sgn : ℚ := if pyStartsWith t "-" then -1 else 1
  let u := if pyStartsWith t "-" || pyStartsWith t "+" then pyDrop t 1 else t
  match splitChar '.' u with
  | [a] =>
    if !pyIsEmpty a && allDigits a.data then some (sgn * digitsVal a.data) else none
  | [a, b] =>
    if !(pyIsEmpty a && pyIsEmpty b) && allDigits a.data && allDigits b.data then
      some (sgn * ((digitsVal a.data : ℚ) + (digitsVal b.data : ℚ) / 10 ^ b.data.length))
    else none
  | _ => none

/-- Python `int(s)`: optional sign and digits; anything else fails. -/
def pyInt (s : String) : Option ℤ :=
  let t := pyStrip s
  let sgn : ℤ := if pyStartsWith t "-" then -1 else 1
  let u := if pyStartsWith t "-" || pyStartsWith t "+" then pyDrop t 1 else t
  if !pyIsEmpty u && allDigits u.data then some (sgn * digitsVal u.data) else none

/-- Outcome of `_parse_tx_line`: `skip` models `return None` (the line is
silently discarded), `ok` a parsed record, and `err` an uncaught Python
`ValueError` raised by `float(...)` / `int(...)` on a non-numeric field. -/
inductive TxParse where
  | skip : TxParse
  | ok : TxRec → TxParse
  | err : TxParse
deriving DecidableEq, Repr

/-- `_parse_tx_line`: split on commas, discard unless exactly 11 fields,
convert the numeric fields (which can raise), strip the text fields. -/
def parse_tx_line (line : String) : TxParse :=
  let parts := splitComma line
  if parts.length < 11 then .skip
  else if parts.length ≠ 11 then .skip
  else
    match pyFloat (parts.getD 5 ""), pyFloat (parts.getD 7 ""), pyInt (parts.getD 10 "") with
    | some ar, some ap, some il =>
      .ok { timestamp := pyStrip (parts.getD 0 "")
            from_bank := pyStrip (parts.getD 1 "")
            from_account := pyStrip (parts.getD 2 "")
            to_bank := pyStrip (parts.getD 3 "")
            to_account := pyStrip (parts.getD 4 "")
            amount_received := ar
            recv_currency := pyStrip (parts.getD 6 "")
            amount_paid := ap
            pay_currency := pyStrip (parts.getD 8 "")
            payment_format := pyStrip (parts.getD 9 "")
            is_laundering := il }
    | _, _, _ => .err

/-- The endpoint accounts of a ring's transactions in the order
`_find_hub` feeds them to its `Counter` (`from_account` then `to_account`,
per transaction). -/
def occList (txs : List TxRec) : List String :=
  txs.flatMap (fun tx => [tx.from_account, tx.to_account])

/-- Greatest count in a counter's entry list. -/
def maxCount (l : List (String × ℕ)) : ℕ :=
  l.foldr (fun p m => max p.2 m) 0

/-- First entry attaining the greatest count (`Counter.most_common(1)` with
its insertion-order-stable tie-break); `""` on an empty counter. -/
def argmaxFirst : List (String × ℕ) → String
  | [] => ""
  | (a, c) :: r => if maxCount r ≤ c then a else argmaxFirst r

/-- The final state of `_find_hub`'s `Counter`: keys in first-encounter
order, each with its total occurrence count. -/
def countsOf (txs : List TxRec) : List (String × ℕ) :=
  (firstDedup (occList txs)).map (fun a => (a, (occList txs).count a))

/-- `_find_hub`. -/
def find_hub (txs : List TxRec) : String :=
  argmaxFirst (countsOf txs)

/-- A completed fraud ring record (a `ring` dict of the source; named
`FraudRing` here because `Ring` is taken by the algebra library). -/
structure FraudRing where
  ring_id : ℕ
  pattern_type : String
  description : String
  transactions : List TxRec
  accounts : List String
  hub_account : String
  num_transactions : ℕ
  temporal_span : List String
deriving DecidableEq, Repr

/-- The open-ring accumulator of `parse_patterns`. -/
structure RingAcc where
  ring_id : ℕ
  pattern_type : String
  description : String
  transactions : List TxRec
deriving DecidableEq, Repr

/-- Close a ring at an `END` marker: compute hub, sorted account set,
transaction count and temporal span (`[]` when there are no transactions). -/
def closeRing (acc : RingAcc) : FraudRing :=
  let txs := acc.transactions
  { ring_id := acc.ring_id
    pattern_type := acc.pattern_type
    description := acc.description
    transactions := txs
    accounts := sortLe strLeB (firstDedup (occList txs))
    hub_account := find_hub txs
    num_transactions := txs.length
    temporal_span :=
      if txs.isEmpty then []
      else [strMinL (txs.map (fun t => t.timestamp)), strMaxL (txs.map (fun t => t.timestamp))] }

/-- The `BEGIN LAUNDERING ATTEMPT - ` marker. -/
def beginMarker : String := "BEGIN LAUNDERING ATTEMPT - "

/-- `_BEGIN_RE`: `^BEGIN LAUNDERING ATTEMPT - ([^:]+)(?::\s*(.*))?$`,
returning (pattern type, description), both stripped. -/
def beginMatch (line : String) : Option (String × String) :=
  if pyStartsWith line beginMarker then
    let rest := pyDrop line beginMarker.data.length
    let ty := pyTakeWhile (fun c => c != ':') rest
    if pyIsEmpty ty then none
    else
      let after := pyDrop rest ty.data.length
      let desc := if pyStartsWith after ":" then pyStrip (pyDrop after 1) else ""
      some (pyStrip ty, desc)
  else none

/-- `_END_RE`: `^END LAUNDERING ATTEMPT`. -/
def endMatch (line : String) : Bool :=
  pyStartsWith line "END LAUNDERING ATTEMPT"

/-- The line loop of `parse_patterns`.  `.error ()` models an uncaught
Python exception escaping from `_parse_tx_line`.  At end of input an open
ring is dropped, as in the source (the loop simply ends). -/
def parse_loop : List String → Option RingAcc → List FraudRing → Except Unit (List FraudRing)
  | [], _, rings => .ok rings
  | raw :: rest, cur, rings =>
    let line := pyStrip raw
    if pyIsEmpty line then parse_loop rest cur rings
    else
      match beginMatch line with
      | some pd => parse_loop rest (some ⟨rings.length, pd.1, pd.2, []⟩) rings
      | none =>
        if endMatch line then
          match cur with
          | some acc => parse_loop rest none (rings ++ [closeRing acc])
          | none => parse_loop rest none rings
        else
          match cur with
          | none => parse_loop rest none rings
          | some acc =>
            match parse_tx_line line with
            | .skip => parse_loop rest (some acc) rings
            | .ok tx => parse_loop rest (some { acc with transactions := acc.transactions ++ [tx] }) rings
            | .err => .error ()

/-- `parse_patterns` over the report's lines. -/
def parse_patterns (lines : List String) : Except Unit (List FraudRing) :=
  parse_loop lines none []

/-! ## Partner selection and table building (`pipeline/transform.py`) -/

/-- A row of the raw transaction ledger, restricted to the two columns
`identify_partners` reads (`sender_account`, `receiver_account`); the other
ledger columns do not enter the selection. -/
structure Txn where
  sender_account : String
  receiver_account : String
deriving DecidableEq, Repr

/-- `trans_df.groupby("receiver_account")["sender_account"].nunique()`:
for every receiver account (pandas sorts group keys), the number of
distinct sender accounts. -/
def in_degree (trans : List Txn) : List (String × ℕ) :=
  (sortLe strLeB (firstDedup (trans.map (fun t => t.receiver_account)))).map
    (fun a =>
      (a, (firstDedup ((trans.filter (fun t => t.receiver_account == a)).map
        (fun t => t.sender_account))).length))

/-- `series.nlargest(n).index.tolist()`: keys of the `n` largest counts
(descending, position-stable for ties). -/
def nlargestKeys (n : ℕ) (l : List (String × ℕ)) : List String :=
  ((sortLe (fun p q => decide (q.2 ≤ p.2)) l).take n).map (fun p => p.1)

/-- `identify_partners`: 20% fraud-hub quota by fan-in, remainder filled by
top fan-in among non-hub receivers; returns (partner account set, selected
fraud hubs).  `int(top_n * 0.20)` is `⌊top_n / 5⌋`: the double `0.20`
exceeds `1/5` by less than `2⁻⁵⁴` relatively, so the truncated product
equals `⌊top_n / 5⌋` for every feasible `top_n`.  The final
`list(set(selected_fraud + selected_legit))` has hash-salt-dependent
order; it is modelled in first-occurrence order (all claims about it are
order-independent). -/
def identify_partners (trans : List Txn) (rings : List FraudRing) (top_n : ℕ) :
    List String × List String :=
  let deg := in_degree trans
  let fraud_hubs := firstDedup (rings.map (fun r => r.hub_account))
  let fraud_candidates := deg.filter (fun p => fraud_hubs.contains p.1)
  let target_fraud := top_n / 5
  let selected_fraud := nlargestKeys (min target_fraud fraud_candidates.length) fraud_candidates
  let legit_candidates := deg.filter (fun p => !(fraud_hubs.contains p.1))
  let target_legit := top_n - selected_fraud.length
  let selected_legit := nlargestKeys target_legit legit_candidates
  (firstDedup (selected_fraud ++ selected_legit), selected_fraud)

/-- The seed `build_trades` derives for a client's instrument-pool RNG:
`np.random.default_rng(seed + hash(cid) % (2**31))`.  `pyHash` stands for
the running interpreter's built-in string hash, which is salted per
process (`PYTHONHASHSEED`); it is therefore an extra parameter of the
computation, not a function of the inputs. -/
def client_seed (seed : ℤ) (pyHash : String → ℤ) (cid : String) : ℤ :=
  seed + pyHash cid % 2 ^ 31

/-- The per-client instrument pool of `build_trades`:
`client_rng = default_rng(client_seed)`, `n_instr = client_rng.integers(1, 4)`,
`pool = client_rng.choice(INSTRUMENTS, size=n_instr, replace=False)`.
`rngOfSeed` abstracts `np.random.default_rng`. -/
def client_instrument_pool {σ : Type} (M : RngModel σ) (rngOfSeed : ℤ → σ)
    (seed : ℤ) (pyHash : String → ℤ) (cid : String) : List String :=
  let s0 := rngOfSeed (client_seed seed pyHash cid)
  let n := (M.intRange 1 4 s0).1
  let s1 := (M.intRange 1 4 s0).2
  (M.choiceN INSTRUMENTS n.toNat s1).1

/-- Positional worker for `build_commissions` (ids `CM_%07d` are assigned
by row position, starting at `k + 1`). -/
def build_commissions_from (rate : ℚ) (delayMin : ℤ) (k : ℕ) : List Trade → List Commission
  | [] => []
  | t :: r =>
    { commission_id := k + 1
      timestamp := t.timestamp + delayMin * 60
      client_id := t.client_id
      partner_id := t.partner_id
      trade_id := t.trade_id
      commission_amount := t.trade_volume * rate
      currency := t.currency
      is_fraudulent := t.is_fraudulent } :: build_commissions_from rate delayMin (k + 1) r

/-- `build_commissions`: one commission per trade, amount
`trade_volume * COMMISSION_RATE`, timestamp delayed by
`COMMISSION_DELAY_MINUTES`. -/
def build_commissions (rate : ℚ) (delayMin : ℤ) (trades : List Trade) : List Commission :=
  build_commissions_from rate delayMin 0 trades

/-- `min` of a list of timestamps (callers pass non-empty groups). -/
def minZ : List ℤ → ℤ
  | [] => 0
  | x :: r => r.foldl min x

/-- `max` of a list of timestamps. -/
def maxZ : List ℤ → ℤ
  | [] => 0
  | x :: r => r.foldl max x

/-- `build_referrals`: group trades by `(partner_id, client_id)` and
aggregate min/max timestamp, row count and volume sum;
`total_commissions = total_volume * COMMISSION_RATE`.  (pandas sorts the
group keys; key order is irrelevant to every claim, and both sides of any
comparison below use this same definition.) -/
def build_referrals (rate : ℚ) (trades : List Trade) : List Referral :=
  (firstDedup (trades.map (fun t => (t.partner_id, t.client_id)))).map
    (fun k =>
      let g := trades.filter (fun t => t.partner_id == k.1 && t.client_id == k.2)
      { partner_id := k.1
        client_id := k.2
        first_trade_date := minZ (g.map (fun t => t.timestamp))
        last_trade_date := maxZ (g.map (fun t => t.timestamp))
        num_trades := g.length
        total_volume := (g.map (fun t => t.trade_volume)).sum
        total_commissions := (g.map (fun t => t.trade_volume)).sum * rate })

/-! ## Fraud-pattern injection (`pipeline/inject_patterns.py`) -/

/-- Python `round(x, 2)` as round-to-cents.  (Python rounds half to even on
the binary double; no claim depends on the value this produces, only on the
fact that some volume is written.) -/
def round2 (q : ℚ) : ℚ :=
  (round (q * 100) : ℚ) / 100

/-- The defensive direction fix of `inject_opposite_trading` (lines 91–94):
if the two directions came out equal, force `idx1 := BUY`, `idx2 := SELL`. -/
def dirFix (tr : List Trade) (i j : ℕ) : List Trade :=
  if (getT tr i).direction = (getT tr j).direction then
    modAt (modAt tr j (fun t => { t with direction := "SELL" }))
      i (fun t => { t with direction := "BUY" })
  else tr

/-- The body of the pair loop of `inject_opposite_trading` for the pair of
row positions `(p.1, p.2)` (earlier-timestamp row first): roll the
injection probability, and if selected overwrite the second row's
timestamp/instrument/volume, force opposite directions and set the flags.
The generator calls appear in source order
(`random`, `integers(1, 60)`, `uniform(0.98, 1.02)`). -/
def processPair {σ : Type} (M : RngModel σ) (prob : ℚ)
    (st : List Trade × σ) (p : ℕ × ℕ) : List Trade × σ :=
  let tr := st.1
  let r := (M.random st.2).1
  let s1 := (M.random st.2).2
  if prob < r then (tr, s1)
  else
    let off := (M.intRange 1 60 s1).1
    let s2 := (M.intRange 1 60 s1).2
    let tr1 := modAt tr p.2 (fun t => { t with timestamp := (getT tr p.1).timestamp + off })
    let tr2 := modAt tr1 p.2 (fun t => { t with instrument := (getT tr1 p.1).instrument })
    let d1 := (getT tr2 p.1).direction
    let tr3 := modAt tr2 p.1 (fun t => { t with direction := "BUY" })
    let tr4 := modAt tr3 p.2 (fun t => { t with direction := if d1 = "BUY" then "SELL" else "BUY" })
    let tr5 := dirFix tr4 p.1 p.2
    let vol1 := (getT tr5 p.1).trade_volume
    let u := (M.uniform (98 / 100) (102 / 100) s2).1
    let s3 := (M.uniform (98 / 100) (102 / 100) s2).2
    let tr6 := modAt tr5 p.2 (fun t => { t with trade_volume := round2 (vol1 * u) })
    let tr7 := modAt tr6 p.1 (fun t => { t with is_opposite_trade := true })
    let tr8 := modAt tr7 p.2 (fun t => { t with is_opposite_trade := true })
    let tr9 := modAt tr8 p.1 (fun t => { t with is_fraudulent := true })
    let trA := modAt tr9 p.2 (fun t => { t with is_fraudulent := true })
    (trA, s3)

/-- The row positions of one partner's trades, sorted by timestamp and
walked in consecutive non-overlapping pairs.  (`sort_values` uses an
unstable quicksort; the sort order of *equal* timestamps is never relied
on by a claim.)  A partner with fewer than 2 rows yields no pairs, exactly
as the `continue` in the source — in both cases no generator draw occurs. -/
def partner_pairs (tr : List Trade) (pid : String) : List (ℕ × ℕ) :=
  let idxs := (List.range tr.length).filter (fun i => (getT tr i).partner_id == pid)
  pairUp (sortLe (fun i j => decide ((getT tr i).timestamp ≤ (getT tr j).timestamp)) idxs)

/-- `inject_opposite_trading`: reset the `is_opposite_trade` column, then
for every fraudulent partner pair up its trades (sorted by timestamp) and
apply `processPair` to each pair. -/
def inject_opposite_trading {σ : Type} (M : RngModel σ) (prob : ℚ)
    (partners : List Partner) (trades : List Trade) (s : σ) : List Trade × σ :=
  let trades0 := trades.map (fun t => { t with is_opposite_trade := false })
  let fraud_ids := (partners.filter (fun p => p.is_fraudulent)).map (fun p => p.partner_id)
  fraud_ids.foldl (fun st pid => (partner_pairs st.1 pid).foldl (processPair M prob) st)
    (trades0, s)

/-- `trades.groupby("partner_id")["client_id"].apply(list)` for one
partner: that partner's client ids in row order (`[]` when absent). -/
def partner_clients (trades : List Trade) (pid : String) : List String :=
  (trades.filter (fun t => t.partner_id == pid)).map (fun t => t.client_id)

/-- POSIX seconds of `pd.Timestamp("2022-09-01")`. -/
def baseEpoch : ℤ := 1661990400

/-- Accumulator of `inject_bonus_abuse`: new trades, new withdrawals, the
running `trade_counter` / `withdrawal_counter`, and the generator state. -/
structure BonusOut (σ : Type) where
  nt : List Trade
  nw : List Withdrawal
  tc : ℕ
  wc : ℕ
  rng : σ

/-- The inner client loop of `inject_bonus_abuse` for one selected partner:
one synthetic deposit trade (id `tc + 1, tc + 2, …`) and one matching
withdrawal per selected client, both flagged `is_bonus_abuse`. -/
def bonus_rows {σ : Type} (M : RngModel σ) (pid : String) (base : ℤ) :
    List String → ℕ → ℕ → σ → BonusOut σ
  | [], tc, wc, s => ⟨[], [], tc, wc, s⟩
  | cid :: rest, tc, wc, s =>
    let off := (M.intRange 0 60 s).1
    let s1 := (M.intRange 0 60 s).2
    let ts := base + off * 60
    let t : Trade :=
      { trade_id := tc + 1, timestamp := ts, client_id := cid, partner_id := pid
        instrument := "EURUSD", direction := "BUY", trade_volume := BONUS_ABUSE_DEPOSIT
        currency := "US Dollar", is_fraudulent := true, is_opposite_trade := false
        is_bonus_abuse := true }
    let w : Withdrawal :=
      { withdrawal_id := wc + 1, timestamp := ts + BONUS_ABUSE_WITHDRAW_DELAY_HOURS * 3600
        client_id := cid, partner_id := pid, amount := BONUS_ABUSE_DEPOSIT
        is_bonus_abuse := true }
    let rest' := bonus_rows M pid base rest (tc + 1) (wc + 1) s1
    ⟨t :: rest'.nt, w :: rest'.nw, rest'.tc, rest'.wc, rest'.rng⟩

/-- The per-partner body of `inject_bonus_abuse`: skip a partner with no
clients or fewer than 2 distinct clients (before any generator draw, as in
the source); otherwise pick `min(integers(10, 16), #distinct)` clients
without replacement, draw the base window, and append the rows. -/
def bonusStep {σ : Type} (M : RngModel σ) (clientsOf : String → List String)
    (st : BonusOut σ) (q : Partner) : BonusOut σ :=
  let clients := clientsOf q.partner_id
  if clients.isEmpty then st
  else
    let uniqueClients := firstDedup clients
    if uniqueClients.length < 2 then st
    else
      let nd := (M.intRange 10 16 st.rng).1
      let s1 := (M.intRange 10 16 st.rng).2
      let nClients := min nd.toNat uniqueClients.length
      let selected := (M.choiceN uniqueClients nClients s1).1
      let s2 := (M.choiceN uniqueClients nClients s1).2
      let d := (M.intRange 0 30 s2).1
      let s3 := (M.intRange 0 30 s2).2
      let hh := (M.intRange 6 22 s3).1
      let s4 := (M.intRange 6 22 s3).2
      let base := baseEpoch + d * 86400 + hh * 3600
      let blk := bonus_rows M q.partner_id base selected st.tc st.wc s4
      ⟨st.nt ++ blk.nt, st.nw ++ blk.nw, blk.tc, blk.wc, blk.rng⟩

/-- `inject_bonus_abuse`.  `sampleFn` abstracts the seeded pandas sample
`fraud_partners.sample(n=n_abuse, random_state=seed + 1000)`;
`n_abuse = max(1, int(len * 0.3))` is `max 1 ⌊3·len/10⌋` (the double
product never rounds across an integer for feasible lengths).  Returns
(trades with the new rows appended, new withdrawals, generator state). -/
def inject_bonus_abuse {σ : Type} (M : RngModel σ)
    (sampleFn : List Partner → ℕ → List Partner) (partners : List Partner)
    (trades : List Trade) (s : σ) : List Trade × List Withdrawal × σ :=
  let fraudPartners := partners.filter (fun p => p.is_fraudulent)
  if fraudPartners.isEmpty then (trades, [], s)
  else
    let nAbuse := max 1 (3 * fraudPartners.length / 10)
    let abusePartners := sampleFn fraudPartners nAbuse
    let stF := abusePartners.foldl (bonusStep M (partner_clients trades))
      ⟨[], [], trades.length, 0, s⟩
    (trades ++ stF.nt, stF.nw, stF.rng)

/-- `trades.set_index("trade_id")["trade_volume"].to_dict()` consulted at
one key: on duplicate ids the last row wins, hence the reversed search. -/
def lookup_vol (trades : List Trade) (tid : ℕ) : Option ℚ :=
  (trades.reverse.find? (fun t => t.trade_id == tid)).map (fun t => t.trade_volume)

/-- The commission resync of `run_injection`: every commission row whose
`trade_id` is present in the updated trades gets
`commission_amount := trade_volume * rate`; other rows are untouched. -/
def resync_commissions (rate : ℚ) (trades : List Trade) (commissions : List Commission) :
    List Commission :=
  commissions.map (fun c =>
    match lookup_vol trades c.trade_id with
    | some v => { c with commission_amount := v * rate }
    | none => c)

/-- What `run_injection` persists. -/
structure InjectionResult where
  trades : List Trade
  withdrawals : List Withdrawal
  commissions : List Commission
  referrals : List Referral
deriving DecidableEq, Repr

/-- `run_injection`: opposite-trade injection (fresh generator), bonus-abuse
injection (fresh generator), resync of the commissions.  The loaded
referrals are returned unchanged: the function reads `referrals.csv` into
`referrals` and never rebuilds or rewrites it. -/
def run_injection {σ₁ σ₂ : Type} (M₁ : RngModel σ₁) (M₂ : RngModel σ₂)
    (sampleFn : List Partner → ℕ → List Partner) (partners : List Partner)
    (trades₀ : List Trade) (commissions₀ : List Commission)
    (referrals₀ : List Referral) (s₁ : σ₁) (s₂ : σ₂) : InjectionResult :=
  let tr1 := (inject_opposite_trading M₁ OPPOSITE_TRADE_PROBABILITY partners trades₀ s₁).1
  let br := inject_bonus_abuse M₂ sampleFn partners tr1 s₂
  { trades := br.1
    withdrawals := br.2.1
    commissions := resync_commissions COMMISSION_RATE br.1 commissions₀
    referrals := referrals₀ }

/-- The commission invariant of §3/§8 of the spec for a tolerance `eps`:
every commission row joined to a trade row on `trade_id` satisfies
`|commission_amount − trade_volume × rate| < eps`. -/
def commission_invariant (rate eps : ℚ) (commissions : List Commission)
    (trades : List Trade) : Prop :=
  ∀ c ∈ commissions, ∀ t ∈ trades, c.trade_id = t.trade_id →
    |c.commission_amount - t.trade_volume * rate| < eps

/-- A generator model over `ℤ` states whose `integers` draw depends on the
seed it was created from; used to exhibit the hash-salt dependence of the
instrument pools. -/
def hashRng : RngModel ℤ where
  random := fun s => (0, s)
  intRange := fun lo hi s => (if s = 42 then lo else hi - 1, s)
  uniform := fun a _ s => (a, s)
  choice1 := fun l s => (l.headD "", s)
  choiceN := fun l n s => (l.take n, s)

/-- Two-trade input table used to exhibit the stale referral table: one
fraudulent partner, one client, distinct timestamps. -/
def c3Trades : List Trade :=
  [⟨1, 100, "C_000001", "P_0001", "EURUSD", "BUY", 100, "US Dollar", false, false, false⟩,
   ⟨2, 200, "C_000001", "P_0001", "GBPJPY", "BUY", 100, "US Dollar", false, false, false⟩]

/-- `run_injection` on `c3Trades` with its built commissions and referrals,
degenerate generators and prefix sampling. -/
def c3Result : InjectionResult :=
  run_injection unitRng unitRng (fun l n => l.take n) [⟨"P_0001", true⟩] c3Trades
    (build_commissions COMMISSION_RATE COMMISSION_DELAY_MINUTES c3Trades)
    (build_referrals COMMISSION_RATE c3Trades) () ()

/-- Four trades of one fraudulent partner at distinct timestamps: the
Pattern A configuration of §4.1 with the roll forced to select. -/
def c5Trades : List Trade :=
  [⟨1, 100, "C_000001", "P_0001", "EURUSD", "SELL", 100, "US Dollar", false, false, false⟩,
   ⟨2, 110, "C_000002", "P_0001", "GBPJPY", "SELL", 100, "US Dollar", false, false, false⟩,
   ⟨3, 200, "C_000003", "P_0001", "USDJPY", "SELL", 100, "US Dollar", false, false, false⟩,
   ⟨4, 210, "C_000004", "P_0001", "XAUUSD", "SELL", 100, "US Dollar", false, false, false⟩]

/-- Twelve trades of one fraudulent partner with twelve distinct clients:
the Pattern B configuration of §4.2. -/
def c6Trades : List Trade :=
  [⟨1, 100, "C_000001", "P_0001", "EURUSD", "BUY", 100, "US Dollar", false, false, false⟩,
   ⟨2, 200, "C_000002", "P_0001", "EURUSD", "BUY", 100, "US Dollar", false, false, false⟩,
   ⟨3, 300, "C_000003", "P_0001", "EURUSD", "BUY", 100, "US Dollar", false, false, false⟩,
   ⟨4, 400, "C_000004", "P_0001", "EURUSD", "BUY", 100, "US Dollar", false, false, false⟩,
   ⟨5, 500, "C_000005", "P_0001", "EURUSD", "BUY", 100, "US Dollar", false, false, false⟩,
   ⟨6, 600, "C_000006", "P_0001", "EURUSD", "BUY", 100, "US Dollar", false, false, false⟩,
   ⟨7, 700, "C_000007", "P_0001", "EURUSD", "BUY", 100, "US Dollar", false, false, false⟩,
   ⟨8, 800, "C_000008", "P_0001", "EURUSD", "BUY", 100, "US Dollar", false, false, false⟩,
   ⟨9, 900, "C_000009", "P_0001", "EURUSD", "BUY", 100, "US Dollar", false, false, false⟩,
   ⟨10, 1000, "C_000010", "P_0001", "EURUSD", "BUY", 100, "US Dollar", false, false, false⟩,
   ⟨11, 1100, "C_000011", "P_0001", "EURUSD", "BUY", 100, "US Dollar", false, false, false⟩,
   ⟨12, 1200, "C_000012", "P_0001", "EURUSD", "BUY", 100, "US Dollar", false, false, false⟩]

/-! ## Helper lemmas -/

theorem getT_eq_getElem (l : List Trade) (i : ℕ) (h : i < l.length) :
    getT l i = l[i] := by
  simp [getT, List.getD_eq_getElem?_getD, List.getElem?_eq_getElem h]

theorem getT_oob (l : List Trade) (i : ℕ) (h : l.length ≤ i) :
    getT l i = default := by
  simp [getT, List.getD_eq_getElem?_getD, List.getElem?_eq_none h]

theorem modAt_length (l : List Trade) (i : ℕ) (f : Trade → Trade) :
    (modAt l i f).length = l.length := by
  simp [modAt]

theorem getT_modAt_self (l : List Trade) (i : ℕ) (f : Trade → Trade) (h : i < l.length) :
    getT (modAt l i f) i = f (getT l i) := by
  simp [modAt, getT, List.getD_eq_getElem?_getD, List.getElem?_set_self h]

theorem getT_modAt_ne (l : List Trade) (i k : ℕ) (f : Trade → Trade) (h : i ≠ k) :
    getT (modAt l i f) k = getT l k := by
  simp [modAt, getT, List.getD_eq_getElem?_getD, List.getElem?_set_ne h]

theorem getT_modAt_cases (l : List Trade) (i k : ℕ) (f : Trade → Trade) :
    getT (modAt l i f) k = getT l k ∨
      (i = k ∧ i < l.length ∧ getT (modAt l i f) k = f (getT l i)) := by
  by_cases hik : i = k
  · subst hik
    by_cases h : i < l.length
    · exact Or.inr ⟨rfl, h, getT_modAt_self l i f h⟩
    · left
      simp [modAt, List.set_eq_of_length_le (Nat.le_of_not_lt h)]
  · exact Or.inl (getT_modAt_ne l i k f hik)

theorem getT_modAt_id (l : List Trade) (i k : ℕ) (f : Trade → Trade)
    (hf : ∀ t, (f t).trade_id = t.trade_id) :
    (getT (modAt l i f) k).trade_id = (getT l k).trade_id := by
  rcases getT_modAt_cases l i k f with h | ⟨rfl, _, h⟩
  · rw [h]
  · rw [h, hf]

theorem getT_modAt_fraud_mono (l : List Trade) (i k : ℕ) (f : Trade → Trade)
    (hf : ∀ t, t.is_fraudulent = true → (f t).is_fraudulent = true)
    (h : (getT l k).is_fraudulent = true) :
    (getT (modAt l i f) k).is_fraudulent = true := by
  rcases getT_modAt_cases l i k f with he | ⟨rfl, _, he⟩
  · rw [he]; exact h
  · rw [he]; exact hf _ h

theorem dirFix_length (l : List Trade) (i j : ℕ) :
    (dirFix l i j).length = l.length := by
  unfold dirFix
  split <;> simp [modAt_length]

theorem modAt_length_eq (l : List Trade) (i : ℕ) (f : Trade → Trade) (n : ℕ)
    (h : l.length = n) : (modAt l i f).length = n := by
  rw [modAt_length]; exact h

theorem getT_modAt_id_eq (l : List Trade) (i k : ℕ) (f : Trade → Trade) (n : ℕ)
    (hf : ∀ t, (f t).trade_id = t.trade_id) (h : (getT l k).trade_id = n) :
    (getT (modAt l i f) k).trade_id = n := by
  rcases getT_modAt_cases l i k f with he | ⟨rfl, _, he⟩
  · rw [he]; exact h
  · rw [he, hf]; exact h

theorem dirFix_length_eq (l : List Trade) (i j : ℕ) (n : ℕ)
    (h : l.length = n) : (dirFix l i j).length = n := by
  unfold dirFix
  split
  · apply modAt_length_eq
    apply modAt_length_eq
    exact h
  · exact h

theorem getT_dirFix_id_eq (l : List Trade) (i j k : ℕ) (n : ℕ)
    (h : (getT l k).trade_id = n) :
    (getT (dirFix l i j) k).trade_id = n := by
  unfold dirFix
  split
  · apply getT_modAt_id_eq
    · intro t; rfl
    apply getT_modAt_id_eq
    · intro t; rfl
    exact h
  · exact h

theorem getT_dirFix_fraud_mono (l : List Trade) (i j k : ℕ)
    (h : (getT l k).is_fraudulent = true) :
    (getT (dirFix l i j) k).is_fraudulent = true := by
  unfold dirFix
  split
  · apply getT_modAt_fraud_mono
    · intro t ht; exact ht
    apply getT_modAt_fraud_mono
    · intro t ht; exact ht
    exact h
  · exact h

theorem processPair_length {σ : Type} (M : RngModel σ) (prob : ℚ)
    (st : List Trade × σ) (p : ℕ × ℕ) :
    ((processPair M prob st p).1).length = st.1.length := by
  unfold processPair
  lift_lets
  intro tr r s1 off s2 tr1 tr2 d1 tr3 tr4 tr5 vol1 u s3 tr6 tr7 tr8 tr9 trA
  split
  · rfl
  · show trA.length = st.1.length
    apply modAt_length_eq
    apply modAt_length_eq
    apply modAt_length_eq
    apply modAt_length_eq
    apply modAt_length_eq
    apply dirFix_length_eq
    apply modAt_length_eq
    apply modAt_length_eq
    apply modAt_length_eq
    apply modAt_length_eq
    rfl

theorem processPair_id {σ : Type} (M : RngModel σ) (prob : ℚ)
    (st : List Trade × σ) (p : ℕ × ℕ) (k : ℕ) :
    (getT (processPair M prob st p).1 k).trade_id = (getT st.1 k).trade_id := by
  unfold processPair
  lift_lets
  intro tr r s1 off s2 tr1 tr2 d1 tr3 tr4 tr5 vol1 u s3 tr6 tr7 tr8 tr9 trA
  split
  · rfl
  · show (getT trA k).trade_id = (getT st.1 k).trade_id
    apply getT_modAt_id_eq
    · intro t; rfl
    apply getT_modAt_id_eq
    · intro t; rfl
    apply getT_modAt_id_eq
    · intro t; rfl
    apply getT_modAt_id_eq
    · intro t; rfl
    apply getT_modAt_id_eq
    · intro t; rfl
    apply getT_dirFix_id_eq
    apply getT_modAt_id_eq
    · intro t; rfl
    apply getT_modAt_id_eq
    · intro t; rfl
    apply getT_modAt_id_eq
    · intro t; rfl
    apply getT_modAt_id_eq
    · intro t; rfl
    rfl

theorem processPair_fraud_mono {σ : Type} (M : RngModel σ) (prob : ℚ)
    (st : List Trade × σ) (p : ℕ × ℕ) (k : ℕ)
    (h : (getT st.1 k).is_fraudulent = true) :
    (getT (processPair M prob st p).1 k).is_fraudulent = true := by
  unfold processPair
  lift_lets
  intro tr r s1 off s2 tr1 tr2 d1 tr3 tr4 tr5 vol1 u s3 tr6 tr7 tr8 tr9 trA
  split
  · exact h
  · show (getT trA k).is_fraudulent = true
    apply getT_modAt_fraud_mono
    · intro t ht; rfl
    apply getT_modAt_fraud_mono
    · intro t ht; rfl
    apply getT_modAt_fraud_mono
    · intro t ht; exact ht
    apply getT_modAt_fraud_mono
    · intro t ht; exact ht
    apply getT_modAt_fraud_mono
    · intro t ht; exact ht
    apply getT_dirFix_fraud_mono
    apply getT_modAt_fraud_mono
    · intro t ht; exact ht
    apply getT_modAt_fraud_mono
    · intro t ht; exact ht
    apply getT_modAt_fraud_mono
    · intro t ht; exact ht
    apply getT_modAt_fraud_mono
    · intro t ht; exact ht
    exact h

theorem oppPairsFold_length {σ : Type} (M : RngModel σ) (prob : ℚ) :
    ∀ (ps : List (ℕ × ℕ)) (st : List Trade × σ),
      ((ps.foldl (processPair M prob) st).1).length = st.1.length := by
  intro ps
  induction ps with
  | nil => intro st; rfl
  | cons p ps ih =>
    intro st
    rw [List.foldl_cons, ih (processPair M prob st p), processPair_length]

theorem oppPairsFold_id {σ : Type} (M : RngModel σ) (prob : ℚ) :
    ∀ (ps : List (ℕ × ℕ)) (st : List Trade × σ) (k : ℕ),
      (getT (ps.foldl (processPair M prob) st).1 k).trade_id = (getT st.1 k).trade_id := by
  intro ps
  induction ps with
  | nil => intro st k; rfl
  | cons p ps ih =>
    intro st k
    rw [List.foldl_cons, ih (processPair M prob st p), processPair_id]

theorem oppPairsFold_fraud_mono {σ : Type} (M : RngModel σ) (prob : ℚ) :
    ∀ (ps : List (ℕ × ℕ)) (st : List Trade × σ) (k : ℕ),
      (getT st.1 k).is_fraudulent = true →
      (getT (ps.foldl (processPair M prob) st).1 k).is_fraudulent = true := by
  intro ps
  induction ps with
  | nil => intro st k h; exact h
  | cons p ps ih =>
    intro st k h
    rw [List.foldl_cons]
    exact ih (processPair M prob st p) k (processPair_fraud_mono M prob st p k h)

theorem oppFold_length {σ : Type} (M : RngModel σ) (prob : ℚ) :
    ∀ (pids : List String) (st : List Trade × σ),
      ((pids.foldl (fun st pid => (partner_pairs st.1 pid).foldl (processPair M prob) st) st).1).length
        = st.1.length := by
  intro pids
  induction pids with
  | nil => intro st; rfl
  | cons p ps ih =>
    intro st
    rw [List.foldl_cons, ih, oppPairsFold_length]

theorem oppFold_id {σ : Type} (M : RngModel σ) (prob : ℚ) :
    ∀ (pids : List String) (st : List Trade × σ) (k : ℕ),
      (getT (pids.foldl (fun st pid => (partner_pairs st.1 pid).foldl (processPair M prob) st) st).1 k).trade_id
        = (getT st.1 k).trade_id := by
  intro pids
  induction pids with
  | nil => intro st k; rfl
  | cons p ps ih =>
    intro st k
    rw [List.foldl_cons, ih, oppPairsFold_id]

theorem oppFold_fraud_mono {σ : Type} (M : RngModel σ) (prob : ℚ) :
    ∀ (pids : List String) (st : List Trade × σ) (k : ℕ),
      (getT st.1 k).is_fraudulent = true →
      (getT (pids.foldl (fun st pid => (partner_pairs st.1 pid).foldl (processPair M prob) st) st).1 k).is_fraudulent
        = true := by
  intro pids
  induction pids with
  | nil => intro st k h; exact h
  | cons p ps ih =>
    intro st k h
    rw [List.foldl_cons]
    exact ih _ k (oppPairsFold_fraud_mono M prob _ _ k h)

theorem getT_map_reset (l : List Trade) (k : ℕ) :
    getT (l.map (fun t => { t with is_opposite_trade := false })) k =
      { getT l k with is_opposite_trade := false } := by
  by_cases h : k < l.length
  · have hm : k < (l.map (fun t => { t with is_opposite_trade := false })).length := by
      simpa using h
    rw [getT_eq_getElem _ _ hm, getT_eq_getElem _ _ h, List.getElem_map]
  · rw [getT_oob _ _ (by simpa using Nat.le_of_not_lt h), getT_oob _ _ (Nat.le_of_not_lt h)]
    rfl

theorem inject_opposite_length {σ : Type} (M : RngModel σ) (prob : ℚ)
    (partners : List Partner) (trades : List Trade) (s : σ) :
    ((inject_opposite_trading M prob partners trades s).1).length = trades.length := by
  unfold inject_opposite_trading
  lift_lets
  intro trades0 fraud_ids
  rw [oppFold_length]
  show trades0.length = trades.length
  simp [trades0]

theorem inject_opposite_id {σ : Type} (M : RngModel σ) (prob : ℚ)
    (partners : List Partner) (trades : List Trade) (s : σ) (k : ℕ) :
    (getT (inject_opposite_trading M prob partners trades s).1 k).trade_id
      = (getT trades k).trade_id := by
  unfold inject_opposite_trading
  lift_lets
  intro trades0 fraud_ids
  rw [oppFold_id]
  show (getT trades0 k).trade_id = (getT trades k).trade_id
  rw [show trades0 = trades.map (fun t => { t with is_opposite_trade := false }) from rfl,
    getT_map_reset]

theorem inject_opposite_fraud_mono {σ : Type} (M : RngModel σ) (prob : ℚ)
    (partners : List Partner) (trades : List Trade) (s : σ) (k : ℕ)
    (h : (getT trades k).is_fraudulent = true) :
    (getT (inject_opposite_trading M prob partners trades s).1 k).is_fraudulent = true := by
  unfold inject_opposite_trading
  lift_lets
  intro trades0 fraud_ids
  apply oppFold_fraud_mono
  show (getT trades0 k).is_fraudulent = true
  rw [show trades0 = trades.map (fun t => { t with is_opposite_trade := false }) from rfl,
    getT_map_reset]
  exact h

theorem idsOf_ext (a b : List Trade) (hlen : a.length = b.length)
    (h : ∀ k, (getT a k).trade_id = (getT b k).trade_id) : idsOf a = idsOf b := by
  apply List.ext_getElem
  · simpa [idsOf] using hlen
  · intro n h1 h2
    have ha : n < a.length := by simpa [idsOf] using h1
    have hb : n < b.length := by simpa [idsOf] using h2
    simp only [idsOf, List.getElem_map]
    rw [← getT_eq_getElem a n ha, ← getT_eq_getElem b n hb]
    exact h n

theorem inject_opposite_ids {σ : Type} (M : RngModel σ) (prob : ℚ)
    (partners : List Partner) (trades : List Trade) (s : σ) :
    idsOf (inject_opposite_trading M prob partners trades s).1 = idsOf trades := by
  apply idsOf_ext
  · exact inject_opposite_length M prob partners trades s
  · intro k
    exact inject_opposite_id M prob partners trades s k

theorem bonus_rows_nt_length {σ : Type} (M : RngModel σ) (pid : String) (base : ℤ) :
    ∀ (sel : List String) (tc wc : ℕ) (s : σ),
      ((bonus_rows M pid base sel tc wc s).nt).length = sel.length := by
  intro sel
  induction sel with
  | nil => intro tc wc s; rfl
  | cons c r ih =>
    intro tc wc s
    simp only [bonus_rows, List.length_cons]
    rw [ih]

theorem bonus_rows_nw_length {σ : Type} (M : RngModel σ) (pid : String) (base : ℤ) :
    ∀ (sel : List String) (tc wc : ℕ) (s : σ),
      ((bonus_rows M pid base sel tc wc s).nw).length = sel.length := by
  intro sel
  induction sel with
  | nil => intro tc wc s; rfl
  | cons c r ih =>
    intro tc wc s
    simp only [bonus_rows, List.length_cons]
    rw [ih]

theorem bonus_rows_tc {σ : Type} (M : RngModel σ) (pid : String) (base : ℤ) :
    ∀ (sel : List String) (tc wc : ℕ) (s : σ),
      (bonus_rows M pid base sel tc wc s).tc = tc + sel.length := by
  intro sel
  induction sel with
  | nil => intro tc wc s; rfl
  | cons c r ih =>
    intro tc wc s
    simp only [bonus_rows, List.length_cons]
    rw [ih]
    omega

theorem bonus_rows_nt_mem {σ : Type} (M : RngModel σ) (pid : String) (base : ℤ) :
    ∀ (sel : List String) (tc wc : ℕ) (s : σ),
      ∀ t ∈ (bonus_rows M pid base sel tc wc s).nt,
        t.partner_id = pid ∧ t.is_bonus_abuse = true ∧ t.is_fraudulent = true ∧
          tc < t.trade_id ∧ t.trade_id ≤ tc + sel.length := by
  intro sel
  induction sel with
  | nil => intro tc wc s t ht; simp [bonus_rows] at ht
  | cons c r ih =>
    intro tc wc s t ht
    simp only [bonus_rows, List.mem_cons] at ht
    rcases ht with rfl | ht
    · refine ⟨rfl, rfl, rfl, ?_, ?_⟩ <;> simp
    · rcases ih (tc + 1) (wc + 1) _ t ht with ⟨h1, h2, h3, h4, h5⟩
      refine ⟨h1, h2, h3, by omega, by simpa [Nat.add_right_comm] using h5⟩

theorem bonus_rows_nw_mem {σ : Type} (M : RngModel σ) (pid : String) (base : ℤ) :
    ∀ (sel : List String) (tc wc : ℕ) (s : σ),
      ∀ w ∈ (bonus_rows M pid base sel tc wc s).nw,
        w.partner_id = pid ∧ w.is_bonus_abuse = true := by
  intro sel
  induction sel with
  | nil => intro tc wc s w hw; simp [bonus_rows] at hw
  | cons c r ih =>
    intro tc wc s w hw
    simp only [bonus_rows, List.mem_cons] at hw
    rcases hw with rfl | hw
    · exact ⟨rfl, rfl⟩
    · exact ih (tc + 1) (wc + 1) _ w hw

theorem bonus_rows_ids_pairwise {σ : Type} (M : RngModel σ) (pid : String) (base : ℤ) :
    ∀ (sel : List String) (tc wc : ℕ) (s : σ),
      (idsOf (bonus_rows M pid base sel tc wc s).nt).Pairwise (· < ·) := by
  intro sel
  induction sel with
  | nil => intro tc wc s; simp [bonus_rows, idsOf]
  | cons c r ih =>
    intro tc wc s
    simp only [bonus_rows, idsOf, List.map_cons, List.pairwise_cons]
    constructor
    · intro n hn
      simp only [List.mem_map] at hn
      rcases hn with ⟨t, ht, rfl⟩
      have := (bonus_rows_nt_mem M pid base r (tc + 1) (wc + 1) _ t ht).2.2.2.1
      simpa using by omega
    · exact ih (tc + 1) (wc + 1) _

theorem bonusStep_decomp {σ : Type} (M : RngModel σ) (cOf : String → List String)
    (st : BonusOut σ) (q : Partner) :
    ∃ bt bw,
      (bonusStep M cOf st q).nt = st.nt ++ bt ∧
      (bonusStep M cOf st q).nw = st.nw ++ bw ∧
      bt.length = bw.length ∧
      st.tc ≤ (bonusStep M cOf st q).tc ∧
      (∀ t ∈ bt, t.partner_id = q.partner_id ∧ t.is_bonus_abuse = true ∧
        t.is_fraudulent = true ∧ st.tc < t.trade_id ∧ t.trade_id ≤ (bonusStep M cOf st q).tc) ∧
      (∀ w ∈ bw, w.partner_id = q.partner_id ∧ w.is_bonus_abuse = true) ∧
      (idsOf bt).Pairwise (· < ·) := by
  unfold bonusStep
  lift_lets
  intro clients uniqueClients nd s1 nClients selected s2 d s3 hh s4 base blk
  split
  · exact ⟨[], [], by simp, by simp, rfl, le_refl _, by simp, by simp, by simp [idsOf]⟩
  · split
    · exact ⟨[], [], by simp, by simp, rfl, le_refl _, by simp, by simp, by simp [idsOf]⟩
    · refine ⟨blk.nt, blk.nw, rfl, rfl, ?_, ?_, ?_, ?_, ?_⟩
      · show blk.nt.length = blk.nw.length
        rw [show blk = bonus_rows M q.partner_id base selected st.tc st.wc s4 from rfl,
          bonus_rows_nt_length, bonus_rows_nw_length]
      · show st.tc ≤ blk.tc
        rw [show blk = bonus_rows M q.partner_id base selected st.tc st.wc s4 from rfl,
          bonus_rows_tc]
        omega
      · intro t ht
        have hm := bonus_rows_nt_mem M q.partner_id base selected st.tc st.wc s4 t ht
        have htc : blk.tc = st.tc + selected.length := by
          rw [show blk = bonus_rows M q.partner_id base selected st.tc st.wc s4 from rfl,
            bonus_rows_tc]
        refine ⟨hm.1, hm.2.1, hm.2.2.1, hm.2.2.2.1, ?_⟩
        show t.trade_id ≤ blk.tc
        omega
      · intro w hw
        exact bonus_rows_nw_mem M q.partner_id base selected st.tc st.wc s4 w hw
      · exact bonus_rows_ids_pairwise M q.partner_id base selected st.tc st.wc s4

theorem bonusStep_selected {σ : Type} (M : RngModel σ) (hWF : RngWF M)
    (cOf : String → List String) (st : BonusOut σ) (q : Partner)
    (hcl : (firstDedup (cOf q.partner_id)).length = 12) :
    ∃ k bt bw, 10 ≤ k ∧ k ≤ 12 ∧
      (bonusStep M cOf st q).nt = st.nt ++ bt ∧
      (bonusStep M cOf st q).nw = st.nw ++ bw ∧
      bt.length = k ∧ bw.length = k ∧
      (∀ t ∈ bt, t.partner_id = q.partner_id) ∧
      (∀ w ∈ bw, w.partner_id = q.partner_id) := by
  unfold bonusStep
  lift_lets
  intro clients uniqueClients nd s1 nClients selected s2 d s3 hh s4 base blk
  split
  · exfalso
    rename_i hemp
    rw [List.isEmpty_eq_true] at hemp
    rw [show clients = cOf q.partner_id from rfl] at hemp
    rw [hemp] at hcl
    simp [firstDedup, firstDedupAux] at hcl
  · split
    · exfalso
      rename_i hlt
      have : uniqueClients.length = 12 := hcl
      omega
    · have hnd1 : (10 : ℤ) ≤ nd := hWF.intRange_lb 10 16 st.rng (by norm_num)
      have hnd2 : nd < 16 := hWF.intRange_ub 10 16 st.rng (by norm_num)
      have hu : uniqueClients.length = 12 := hcl
      have hk1 : 10 ≤ nClients := by
        show 10 ≤ min nd.toNat uniqueClients.length
        rw [hu]
        omega
      have hk2 : nClients ≤ 12 := by
        show min nd.toNat uniqueClients.length ≤ 12
        rw [hu]
        omega
      have hsel : selected.length = nClients := by
        apply hWF.choiceN_length
        show nClients ≤ uniqueClients.length
        rw [hu]
        exact hk2
      refine ⟨nClients, blk.nt, blk.nw, hk1, hk2, rfl, rfl, ?_, ?_, ?_, ?_⟩
      · rw [show blk = bonus_rows M q.partner_id base selected st.tc st.wc s4 from rfl,
          bonus_rows_nt_length]
        exact hsel
      · rw [show blk = bonus_rows M q.partner_id base selected st.tc st.wc s4 from rfl,
          bonus_rows_nw_length]
        exact hsel
      · intro t ht
        exact (bonus_rows_nt_mem M q.partner_id base selected st.tc st.wc s4 t ht).1
      · intro w hw
        exact (bonus_rows_nw_mem M q.partner_id base selected st.tc st.wc s4 w hw).1

theorem bonusFold_inv {σ : Type} (M : RngModel σ) (cOf : String → List String) (N : ℕ) :
    ∀ (l : List Partner) (st : BonusOut σ),
      N ≤ st.tc →
      (∀ t ∈ st.nt, t.is_bonus_abuse = true ∧ t.is_fraudulent = true ∧
        N < t.trade_id ∧ t.trade_id ≤ st.tc) →
      (∀ w ∈ st.nw, w.is_bonus_abuse = true) →
      (idsOf st.nt).Pairwise (· < ·) →
      N ≤ (l.foldl (bonusStep M cOf) st).tc ∧
      (∀ t ∈ (l.foldl (bonusStep M cOf) st).nt, t.is_bonus_abuse = true ∧
        t.is_fraudulent = true ∧ N < t.trade_id ∧
        t.trade_id ≤ (l.foldl (bonusStep M cOf) st).tc) ∧
      (∀ w ∈ (l.foldl (bonusStep M cOf) st).nw, w.is_bonus_abuse = true) ∧
      (idsOf (l.foldl (bonusStep M cOf) st).nt).Pairwise (· < ·) := by
  intro l
  induction l with
  | nil => intro st h1 h2 h3 h4; exact ⟨h1, h2, h3, h4⟩
  | cons q r ih =>
    intro st h1 h2 h3 h4
    rw [List.foldl_cons]
    rcases bonusStep_decomp M cOf st q with
      ⟨bt, bw, hnt, hnw, _, htc, hbt, hbw, hbp⟩
    apply ih
    · omega
    · intro t ht
      rw [hnt] at ht
      rcases List.mem_append.mp ht with hmem | hmem
      · rcases h2 t hmem with ⟨a1, a2, a3, a4⟩
        exact ⟨a1, a2, a3, by omega⟩
      · rcases hbt t hmem with ⟨_, a2, a3, a4, a5⟩
        exact ⟨a2, a3, by omega, a5⟩
    · intro w hw
      rw [hnw] at hw
      rcases List.mem_append.mp hw with hmem | hmem
      · exact h3 w hmem
      · exact (hbw w hmem).2
    · rw [hnt, idsOf, List.map_append]
      rw [List.pairwise_append]
      refine ⟨h4, hbp, ?_⟩
      intro a ha b hb
      simp only [idsOf, List.mem_map] at ha hb
      rcases ha with ⟨t1, ht1, rfl⟩
      rcases hb with ⟨t2, ht2, rfl⟩
      have e1 := (h2 t1 ht1).2.2.2
      have e2 := (hbt t2 ht2).2.2.2.1
      omega

theorem bonusFold_other {σ : Type} (M : RngModel σ) (cOf : String → List String)
    (pidStr : String) :
    ∀ (l : List Partner) (st : BonusOut σ),
      (∀ q ∈ l, q.partner_id ≠ pidStr) →
      (l.foldl (bonusStep M cOf) st).nt.filter (fun t => t.partner_id == pidStr)
        = st.nt.filter (fun t => t.partner_id == pidStr) ∧
      (l.foldl (bonusStep M cOf) st).nw.filter (fun w => w.partner_id == pidStr)
        = st.nw.filter (fun w => w.partner_id == pidStr) := by
  intro l
  induction l with
  | nil => intro st _; exact ⟨rfl, rfl⟩
  | cons q r ih =>
    intro st hne
    rw [List.foldl_cons]
    rcases bonusStep_decomp M cOf st q with ⟨bt, bw, hnt, hnw, _, _, hbt, hbw, _⟩
    have hq : q.partner_id ≠ pidStr := hne q (List.mem_cons_self q r)
    rcases ih (bonusStep M cOf st q) (fun a ha => hne a (List.mem_cons_of_mem q ha)) with ⟨i1, i2⟩
    constructor
    · rw [i1, hnt, List.filter_append]
      have : bt.filter (fun t => t.partner_id == pidStr) = [] := by
        rw [List.filter_eq_nil_iff]
        intro t ht
        have := (hbt t ht).1
        simp only [beq_iff_eq]
        rw [this]
        exact hq
      rw [this, List.append_nil]
    · rw [i2, hnw, List.filter_append]
      have : bw.filter (fun w => w.partner_id == pidStr) = [] := by
        rw [List.filter_eq_nil_iff]
        intro w hw
        have := (hbw w hw).1
        simp only [beq_iff_eq]
        rw [this]
        exact hq
      rw [this, List.append_nil]

theorem bonusFold_count {σ : Type} (M : RngModel σ) (hWF : RngWF M)
    (cOf : String → List String) (p : Partner) :
    ∀ (l : List Partner) (st : BonusOut σ),
      p ∈ l →
      l.Pairwise (fun a b => a.partner_id ≠ b.partner_id) →
      (firstDedup (cOf p.partner_id)).length = 12 →
      ∃ k, 10 ≤ k ∧ k ≤ 12 ∧
        ((l.foldl (bonusStep M cOf) st).nt.filter
          (fun t => t.partner_id == p.partner_id)).length
          = (st.nt.filter (fun t => t.partner_id == p.partner_id)).length + k ∧
        ((l.foldl (bonusStep M cOf) st).nw.filter
          (fun w => w.partner_id == p.partner_id)).length
          = (st.nw.filter (fun w => w.partner_id == p.partner_id)).length + k := by
  intro l
  induction l with
  | nil => intro st hp; exact absurd hp (List.not_mem_nil p)
  | cons q r ih =>
    intro st hp hpw hcl
    rw [List.pairwise_cons] at hpw
    rw [List.foldl_cons]
    by_cases hqp : q = p
    · subst hqp
      rcases bonusStep_selected M hWF cOf st q hcl with
        ⟨k, bt, bw, hk1, hk2, hnt, hnw, hbtl, hbwl, hbt, hbw⟩
      have hothers : ∀ a ∈ r, a.partner_id ≠ q.partner_id :=
        fun a ha => (hpw.1 a ha).symm
      rcases bonusFold_other M cOf q.partner_id r (bonusStep M cOf st q) hothers with ⟨o1, o2⟩
      refine ⟨k, hk1, hk2, ?_, ?_⟩
      · rw [o1, hnt, List.filter_append]
        have : bt.filter (fun t => t.partner_id == q.partner_id) = bt := by
          rw [List.filter_eq_self]
          intro t ht
          simp only [beq_iff_eq]
          exact hbt t ht
        rw [this, List.length_append, hbtl]
      · rw [o2, hnw, List.filter_append]
        have : bw.filter (fun w => w.partner_id == q.partner_id) = bw := by
          rw [List.filter_eq_self]
          intro w hw
          simp only [beq_iff_eq]
          exact hbw w hw
        rw [this, List.length_append, hbwl]
    · have hpr : p ∈ r := by
        rcases List.mem_cons.mp hp with h | h
        · exact absurd h.symm hqp
        · exact h
      have hqpid : q.partner_id ≠ p.partner_id := hpw.1 p hpr
      rcases bonusStep_decomp M cOf st q with ⟨bt, bw, hnt, hnw, _, _, hbt, hbw, _⟩
      rcases ih (bonusStep M cOf st q) hpr hpw.2 hcl with ⟨k, hk1, hk2, c1, c2⟩
      refine ⟨k, hk1, hk2, ?_, ?_⟩
      · rw [c1, hnt, List.filter_append]
        have : bt.filter (fun t => t.partner_id == p.partner_id) = [] := by
          rw [List.filter_eq_nil_iff]
          intro t ht
          simp only [beq_iff_eq]
          rw [(hbt t ht).1]
          exact hqpid
        rw [this, List.append_nil]
      · rw [c2, hnw, List.filter_append]
        have : bw.filter (fun w => w.partner_id == p.partner_id) = [] := by
          rw [List.filter_eq_nil_iff]
          intro w hw
          simp only [beq_iff_eq]
          rw [(hbw w hw).1]
          exact hqpid
        rw [this, List.append_nil]

theorem getT_append_left (a b : List Trade) (i : ℕ) (h : i < a.length) :
    getT (a ++ b) i = getT a i := by
  simp [getT, List.getD_eq_getElem?_getD, List.getElem?_append, h]

theorem inject_bonus_decomp {σ : Type} (M : RngModel σ)
    (sampleFn : List Partner → ℕ → List Partner) (partners : List Partner)
    (trades : List Trade) (s : σ) :
    ∃ nt, (inject_bonus_abuse M sampleFn partners trades s).1 = trades ++ nt ∧
      (∀ t ∈ nt, t.is_bonus_abuse = true ∧ t.is_fraudulent = true ∧
        trades.length < t.trade_id) ∧
      (idsOf nt).Pairwise (· < ·) ∧
      (∀ w ∈ (inject_bonus_abuse M sampleFn partners trades s).2.1,
        w.is_bonus_abuse = true) := by
  unfold inject_bonus_abuse
  lift_lets
  intro fraudPartners nAbuse abusePartners stF
  split
  · exact ⟨[], by simp, by simp, by simp [idsOf], by simp⟩
  · have hinv := bonusFold_inv M (partner_clients trades) trades.length abusePartners
      ⟨[], [], trades.length, 0, s⟩ (le_refl _) (by simp) (by simp) (by simp [idsOf])
    refine ⟨stF.nt, rfl, ?_, ?_, ?_⟩
    · intro t ht
      rcases hinv.2.1 t ht with ⟨a1, a2, a3, _⟩
      exact ⟨a1, a2, a3⟩
    · exact hinv.2.2.2
    · intro w hw
      exact hinv.2.2.1 w hw

/-- C9: the injection stage never demotes `is_fraudulent`: a trade row whose
flag is true before `inject_opposite_trading` and `inject_bonus_abuse` run
still has it true afterwards (the injectors only ever set the flag to true). -/
theorem c9_injection_never_demotes_fraud {σ₁ σ₂ : Type} (M₁ : RngModel σ₁)
    (M₂ : RngModel σ₂) (prob : ℚ) (sampleFn : List Partner → ℕ → List Partner)
    (partners : List Partner) (trades : List Trade) (s₁ : σ₁) (s₂ : σ₂) (i : ℕ)
    (hi : i < trades.length)
    (hf : (getT trades i).is_fraudulent = true) :
    (getT (inject_bonus_abuse M₂ sampleFn partners
      (inject_opposite_trading M₁ prob partners trades s₁).1 s₂).1 i).is_fraudulent = true := by
  have h1 : (getT (inject_opposite_trading M₁ prob partners trades s₁).1 i).is_fraudulent = true :=
    inject_opposite_fraud_mono M₁ prob partners trades s₁ i hf
  rcases inject_bonus_decomp M₂ sampleFn partners
    (inject_opposite_trading M₁ prob partners trades s₁).1 s₂ with ⟨nt, hnt, _, _, _⟩
  rw [hnt, getT_append_left]
  · exact h1
  · rw [inject_opposite_length]
    exact hi

/-- Concrete instantiation of `c9_injection_never_demotes_fraud`: one
already-fraudulent trade of a fraudulent partner keeps its flag through
both injectors. -/
theorem c9_witness :
    (getT (inject_bonus_abuse unitRng (fun l n => l.take n) [⟨"P_0001", true⟩]
      (inject_opposite_trading unitRng (40 / 100) [⟨"P_0001", true⟩]
        [⟨1, 0, "C_000001", "P_0001", "EURUSD", "BUY", 100, "US Dollar", true, false, false⟩]
        ()).1 ()).1 0).is_fraudulent = true := by
  exact c9_injection_never_demotes_fraud unitRng unitRng (40 / 100) (fun l n => l.take n)
    [⟨"P_0001", true⟩]
    [⟨1, 0, "C_000001", "P_0001", "EURUSD", "BUY", 100, "US Dollar", true, false, false⟩]
    () () 0 (by decide) (by decide)

theorem find_unique : ∀ (l : List Trade), (idsOf l).Nodup →
    ∀ t ∈ l, l.find? (fun x => x.trade_id == t.trade_id) = some t := by
  intro l
  induction l with
  | nil => intro _ t ht; simp at ht
  | cons a r ih =>
    intro hnd t ht
    rw [idsOf, List.map_cons, List.nodup_cons] at hnd
    rcases List.mem_cons.mp ht with rfl | hmem
    · simp [List.find?_cons]
    · have hne : a.trade_id ≠ t.trade_id := by
        intro he
        exact hnd.1 (he ▸ List.mem_map_of_mem (fun x => x.trade_id) hmem)
      rw [List.find?_cons]
      have hfalse : (a.trade_id == t.trade_id) = false := by
        simp only [beq_eq_false_iff_ne, ne_eq]
        exact hne
      rw [hfalse]
      exact ih hnd.2 t hmem

theorem lookup_vol_eq (l : List Trade) (hnd : (idsOf l).Nodup) (t : Trade) (ht : t ∈ l) :
    lookup_vol l t.trade_id = some t.trade_volume := by
  unfold lookup_vol
  have hrev : (idsOf l.reverse).Nodup := by
    rw [idsOf, List.map_reverse, List.nodup_reverse]
    exact hnd
  rw [find_unique l.reverse hrev t (List.mem_reverse.mpr ht)]
  rfl

theorem build_commissions_mem (rate : ℚ) (delayMin : ℤ) :
    ∀ (l : List Trade) (k : ℕ) (c : Commission),
      c ∈ build_commissions_from rate delayMin k l →
      ∃ t ∈ l, c.trade_id = t.trade_id ∧ c.commission_amount = t.trade_volume * rate := by
  intro l
  induction l with
  | nil => intro k c hc; simp [build_commissions_from] at hc
  | cons a r ih =>
    intro k c hc
    rw [build_commissions_from, List.mem_cons] at hc
    rcases hc with rfl | hc
    · exact ⟨a, List.mem_cons_self a r, rfl, rfl⟩
    · rcases ih (k + 1) c hc with ⟨t, ht, e1, e2⟩
      exact ⟨t, List.mem_cons_of_mem a ht, e1, e2⟩

theorem idsOf_append (a b : List Trade) : idsOf (a ++ b) = idsOf a ++ idsOf b := by
  simp [idsOf]

/-- C1: the commission invariant `commission_amount = trade_volume × rate`
(up to any positive tolerance `eps`) holds for every Commission/Trade pair
joined on `trade_id` both immediately after `build_commissions` and again
after `run_injection` mutates volumes (Pattern A), appends trades
(Pattern B) and resynchronizes the commissions.  The hypotheses state the
shape `build_trades` gives the trades table: ids `1 … n` by position
(`T_%07d`), hence bounded by the row count and duplicate-free. -/
theorem c1_commission_invariant {σ₁ σ₂ : Type} (M₁ : RngModel σ₁) (M₂ : RngModel σ₂)
    (sampleFn : List Partner → ℕ → List Partner) (partners : List Partner)
    (trades : List Trade) (referrals₀ : List Referral) (s₁ : σ₁) (s₂ : σ₂)
    (eps : ℚ) (heps : 0 < eps)
    (hid : ∀ t ∈ trades, t.trade_id ≤ trades.length)
    (hnd : (idsOf trades).Nodup) :
    commission_invariant COMMISSION_RATE eps
      (build_commissions COMMISSION_RATE COMMISSION_DELAY_MINUTES trades) trades ∧
    commission_invariant COMMISSION_RATE eps
      (run_injection M₁ M₂ sampleFn partners trades
        (build_commissions COMMISSION_RATE COMMISSION_DELAY_MINUTES trades) referrals₀
        s₁ s₂).commissions
      (run_injection M₁ M₂ sampleFn partners trades
        (build_commissions COMMISSION_RATE COMMISSION_DELAY_MINUTES trades) referrals₀
        s₁ s₂).trades := by
  constructor
  · intro c hc t ht heq
    rcases build_commissions_mem COMMISSION_RATE COMMISSION_DELAY_MINUTES trades 0 c hc with
      ⟨t0, ht0, e1, e2⟩
    have hids : t.trade_id = t0.trade_id := heq.symm.trans e1
    have h1 := find_unique trades hnd t ht
    have h2 := find_unique trades hnd t0 ht0
    rw [hids] at h1
    have : t = t0 := Option.some.inj (h1.symm.trans h2)
    rw [e2, this]
    simpa using heps
  · set tr1 := (inject_opposite_trading M₁ OPPOSITE_TRADE_PROBABILITY partners trades s₁).1 with htr1
    rcases inject_bonus_decomp M₂ sampleFn partners tr1 s₂ with ⟨nt, hnt, hmemnt, hpw, _⟩
    have hlen1 : tr1.length = trades.length := inject_opposite_length _ _ _ _ _
    have hids1 : idsOf tr1 = idsOf trades := inject_opposite_ids _ _ _ _ _
    have hnd2 : (idsOf ((inject_bonus_abuse M₂ sampleFn partners tr1 s₂).1)).Nodup := by
      rw [hnt, idsOf_append, List.nodup_append]
      refine ⟨by rw [hids1]; exact hnd, ?_, ?_⟩
      · exact hpw.imp (fun h => Nat.ne_of_lt h)
      · intro a ha hb
        rw [hids1] at ha
        rcases List.mem_map.mp ha with ⟨t, ht, rfl⟩
        rcases List.mem_map.mp hb with ⟨u, hu, he⟩
        have h1 : t.trade_id ≤ trades.length := hid t ht
        have h2 : trades.length < u.trade_id := by
          have := (hmemnt u hu).2.2
          omega
        omega
    show commission_invariant COMMISSION_RATE eps
      (resync_commissions COMMISSION_RATE
        ((inject_bonus_abuse M₂ sampleFn partners tr1 s₂).1)
        (build_commissions COMMISSION_RATE COMMISSION_DELAY_MINUTES trades))
      ((inject_bonus_abuse M₂ sampleFn partners tr1 s₂).1)
    intro c' hc' t ht heq
    unfold resync_commissions at hc'
    rcases List.mem_map.mp hc' with ⟨c, hc, hdef⟩
    have hcid : c'.trade_id = c.trade_id := by
      rw [← hdef]
      cases h : lookup_vol ((inject_bonus_abuse M₂ sampleFn partners tr1 s₂).1) c.trade_id <;>
        simp [h]
    have hlk : lookup_vol ((inject_bonus_abuse M₂ sampleFn partners tr1 s₂).1) c.trade_id
        = some t.trade_volume := by
      rw [← hcid, heq]
      exact lookup_vol_eq _ hnd2 t ht
    rw [← hdef]
    rw [hlk]
    simpa using heps

/-- Concrete instantiation of `c1_commission_invariant`: a one-trade table
with tolerance `1`, trivial generators and a prefix-sampling function. -/
theorem c1_witness :
    commission_invariant COMMISSION_RATE 1
      (build_commissions COMMISSION_RATE COMMISSION_DELAY_MINUTES
        [⟨1, 0, "C_000001", "P_0001", "EURUSD", "BUY", 100, "US Dollar", true, false, false⟩])
      [⟨1, 0, "C_000001", "P_0001", "EURUSD", "BUY", 100, "US Dollar", true, false, false⟩] ∧
    commission_invariant COMMISSION_RATE 1
      (run_injection unitRng unitRng (fun l n => l.take n) [⟨"P_0001", true⟩]
        [⟨1, 0, "C_000001", "P_0001", "EURUSD", "BUY", 100, "US Dollar", true, false, false⟩]
        (build_commissions COMMISSION_RATE COMMISSION_DELAY_MINUTES
          [⟨1, 0, "C_000001", "P_0001", "EURUSD", "BUY", 100, "US Dollar", true, false, false⟩])
        [] () ()).commissions
      (run_injection unitRng unitRng (fun l n => l.take n) [⟨"P_0001", true⟩]
        [⟨1, 0, "C_000001", "P_0001", "EURUSD", "BUY", 100, "US Dollar", true, false, false⟩]
        (build_commissions COMMISSION_RATE COMMISSION_DELAY_MINUTES
          [⟨1, 0, "C_000001", "P_0001", "EURUSD", "BUY", 100, "US Dollar", true, false, false⟩])
        [] () ()).trades := by
  exact c1_commission_invariant unitRng unitRng (fun l n => l.take n) [⟨"P_0001", true⟩]
    [⟨1, 0, "C_000001", "P_0001", "EURUSD", "BUY", 100, "US Dollar", true, false, false⟩]
    [] () () 1 (by norm_num) (by decide) (by decide)

/-- C2: reproducibility of the per-client instrument pools fails on the
code.  `build_trades` seeds each client's pool generator with
`seed + hash(cid) % 2**31`, where `hash` is Python's built-in string hash —
salted per interpreter process (`PYTHONHASHSEED`), hence an input of the
run, not a function of (data, seed).  Two legitimate hash functions (two
process salts) give the same client a different derived seed and a
different instrument pool under the same global seed 42, over a
well-formed generator model. -/
theorem c2_hash_salt_breaks_determinism :
    RngWF hashRng ∧
    client_seed 42 (fun _ => 0) "C_000001" ≠ client_seed 42 (fun _ => 1) "C_000001" ∧
    client_instrument_pool hashRng id 42 (fun _ => 0) "C_000001"
      ≠ client_instrument_pool hashRng id 42 (fun _ => 1) "C_000001" := by
  refine ⟨?_, by decide, by decide⟩
  constructor
  · intro s; norm_num [hashRng]
  · intro s; norm_num [hashRng]
  · intro lo hi s h
    simp only [hashRng]
    split <;> omega
  · intro lo hi s h
    simp only [hashRng]
    split <;> omega
  · intro a b s h; simp [hashRng]
  · intro a b s h; simp [hashRng]; exact h
  · intro l n s h
    simp only [hashRng, List.length_take]
    omega

/-- C3: after injection the persisted referral table is *not* the rebuild
of the post-injection trades; `run_injection` loads the referral table and
returns it unchanged (first conjunct is definitional).  On `c3Trades`,
Pattern A moves the second trade's timestamp from 200 to 101, so the
rebuild's `last_trade_date` is 101 where the persisted row still says 200
— the persisted table differs from the rebuild, refuting the claim. -/
theorem c3_referrals_left_stale :
    c3Result.referrals = build_referrals COMMISSION_RATE c3Trades ∧
    ((c3Result.referrals).headD ⟨"", "", 0, 0, 0, 0, 0⟩).last_trade_date = 200 ∧
    ((build_referrals COMMISSION_RATE c3Result.trades).headD
      ⟨"", "", 0, 0, 0, 0, 0⟩).last_trade_date = 101 ∧
    c3Result.referrals ≠ build_referrals COMMISSION_RATE c3Result.trades := by
  have d1 : ((c3Result.referrals).headD ⟨"", "", 0, 0, 0, 0, 0⟩).last_trade_date = 200 := by
    decide
  have d2 : ((build_referrals COMMISSION_RATE c3Result.trades).headD
      ⟨"", "", 0, 0, 0, 0, 0⟩).last_trade_date = 101 := by
    decide
  refine ⟨rfl, d1, d2, ?_⟩
  intro h
  have h2 := congrArg
    (fun l => (l.headD (⟨"", "", 0, 0, 0, 0, 0⟩ : Referral)).last_trade_date) h
  simp only at h2
  rw [d1, d2] at h2
  exact absurd h2 (by decide)

theorem insertLe_length {α : Type} (le : α → α → Bool) (a : α) :
    ∀ (l : List α), (insertLe le a l).length = l.length + 1 := by
  intro l
  induction l with
  | nil => rfl
  | cons b r ih =>
    unfold insertLe
    split
    · rfl
    · simpa using ih

theorem sortLe_length {α : Type} (le : α → α → Bool) :
    ∀ (l : List α), (sortLe le l).length = l.length := by
  intro l
  induction l with
  | nil => rfl
  | cons a r ih =>
    unfold sortLe
    rw [insertLe_length, ih]
    rfl

theorem mem_insertLe {α : Type} (le : α → α → Bool) (a x : α) :
    ∀ (l : List α), x ∈ insertLe le a l ↔ x = a ∨ x ∈ l := by
  intro l
  induction l with
  | nil => simp [insertLe]
  | cons b r ih =>
    unfold insertLe
    split
    · simp
    · rw [List.mem_cons, ih, List.mem_cons]
      tauto

theorem mem_sortLe {α : Type} (le : α → α → Bool) (x : α) :
    ∀ (l : List α), x ∈ sortLe le l ↔ x ∈ l := by
  intro l
  induction l with
  | nil => simp [sortLe]
  | cons a r ih =>
    unfold sortLe
    rw [mem_insertLe, ih, List.mem_cons]

theorem firstDedupAux_length_le {α : Type} [DecidableEq α] :
    ∀ (l : List α) (seen : List α), (firstDedupAux seen l).length ≤ l.length := by
  intro l
  induction l with
  | nil => intro seen; simp [firstDedupAux]
  | cons a r ih =>
    intro seen
    unfold firstDedupAux
    split
    · exact Nat.le_succ_of_le (ih seen)
    · simpa using ih (a :: seen)

theorem mem_firstDedupAux {α : Type} [DecidableEq α] (x : α) :
    ∀ (l : List α) (seen : List α), x ∈ firstDedupAux seen l ↔ x ∈ l ∧ x ∉ seen := by
  intro l
  induction l with
  | nil => intro seen; simp [firstDedupAux]
  | cons a r ih =>
    intro seen
    unfold firstDedupAux
    split
    · rename_i hmem
      rw [ih seen, List.mem_cons]
      constructor
      · rintro ⟨h1, h2⟩; exact ⟨Or.inr h1, h2⟩
      · rintro ⟨h1 | h1, h2⟩
        · subst h1; exact absurd hmem h2
        · exact ⟨h1, h2⟩
    · rename_i hmem
      rw [show (a :: firstDedupAux (a :: seen) r) = a :: firstDedupAux (a :: seen) r from rfl]
      simp only [List.mem_cons, ih (a :: seen)]
      constructor
      · rintro (h | ⟨h1, h2⟩)
        · exact ⟨Or.inl h, h ▸ hmem⟩
        · exact ⟨Or.inr h1, fun hx => h2 (Or.inr hx)⟩
      · rintro ⟨h1 | h1, h2⟩
        · exact Or.inl h1
        · by_cases hxa : x = a
          · exact Or.inl hxa
          · exact Or.inr ⟨h1, fun hx => hx.elim hxa h2⟩

theorem mem_firstDedup {α : Type} [DecidableEq α] (x : α) (l : List α) :
    x ∈ firstDedup l ↔ x ∈ l := by
  unfold firstDedup
  rw [mem_firstDedupAux]
  simp

theorem firstDedup_length_le {α : Type} [DecidableEq α] (l : List α) :
    (firstDedup l).length ≤ l.length :=
  firstDedupAux_length_le l []

/-- C4: `identify_partners` selects at most `⌊cap × 0.20⌋` fraud hubs and at
most `cap` partners in total, and any selected account that is a ring hub
can only have entered through the fraud quota — the legitimate fill
excludes every ring-hub account, selected or not. -/
theorem c4_identify_partners_quota (trans : List Txn) (rings : List FraudRing) (top_n : ℕ) :
    ((identify_partners trans rings top_n).2).length ≤ top_n / 5 ∧
    ((identify_partners trans rings top_n).1).length ≤ top_n ∧
    (∀ a ∈ (identify_partners trans rings top_n).1,
      a ∈ rings.map (fun r => r.hub_account) →
      a ∈ (identify_partners trans rings top_n).2) := by
  unfold identify_partners
  lift_lets
  intro deg fraud_hubs fraud_candidates target_fraud selected_fraud legit_candidates
    target_legit selected_legit
  have hsf : selected_fraud.length ≤ top_n / 5 := by
    show ((((sortLe (fun p q => decide (q.2 ≤ p.2)) fraud_candidates).take
      (min target_fraud fraud_candidates.length))).map (fun p => p.1)).length ≤ top_n / 5
    rw [List.length_map, List.length_take]
    have : target_fraud = top_n / 5 := rfl
    omega
  have hsl : selected_legit.length ≤ target_legit := by
    show ((((sortLe (fun p q => decide (q.2 ≤ p.2)) legit_candidates).take
      target_legit)).map (fun p => p.1)).length ≤ target_legit
    rw [List.length_map, List.length_take]
    omega
  refine ⟨hsf, ?_, ?_⟩
  · show (firstDedup (selected_fraud ++ selected_legit)).length ≤ top_n
    have h1 := firstDedup_length_le (selected_fraud ++ selected_legit)
    rw [List.length_append] at h1
    have h2 : target_legit = top_n - selected_fraud.length := rfl
    have h3 : top_n / 5 ≤ top_n := Nat.div_le_self top_n 5
    omega
  · intro a ha hhub
    rw [show (firstDedup (selected_fraud ++ selected_legit), selected_fraud).1
      = firstDedup (selected_fraud ++ selected_legit) from rfl] at ha
    rw [mem_firstDedup, List.mem_append] at ha
    rcases ha with ha | ha
    · exact ha
    · exfalso
      rcases List.mem_map.mp ha with ⟨p, hp, rfl⟩
      have hp2 := List.mem_of_mem_take hp
      rw [mem_sortLe] at hp2
      have := (List.mem_filter.mp hp2).2
      rw [Bool.not_eq_eq_eq_not, Bool.not_true, List.contains_eq_any_beq] at this
      have hmem : p.1 ∈ fraud_hubs := (mem_firstDedup p.1 _).mpr hhub
      rw [List.any_eq_false] at this
      have := this p.1 hmem
      simp at this

theorem unitRng_wf : RngWF unitRng := by
  constructor
  · intro s; norm_num [unitRng]
  · intro s; norm_num [unitRng]
  · intro lo hi s h; simp [unitRng]
  · intro lo hi s h; simpa [unitRng] using h
  · intro a b s h; simp [unitRng]
  · intro a b s h; simpa [unitRng] using h
  · intro l n s h
    simp only [unitRng, List.length_take]
    omega

/-- C7 (amended): a line inside a ring block whose comma-split field count
is not exactly 11 is silently discarded — `_parse_tx_line` returns no
record and `parse_patterns` continues with the same open ring and no
error.  (The unamended claim also asserted that *no* malformed line can
raise; that part is refuted by `c7_counterexample_float_raises`: an
11-field line with a non-numeric amount raises `ValueError`.) -/
theorem c7_malformed_field_count_skipped (line : String)
    (hn : (splitComma line).length ≠ 11) :
    parse_tx_line line = .skip ∧
    ∀ (rest : List String) (acc : RingAcc) (rings : List FraudRing),
      pyStrip line = line → pyIsEmpty line = false →
      beginMatch line = none → endMatch line = false →
      parse_loop (line :: rest) (some acc) rings = parse_loop rest (some acc) rings := by
  have hskip : parse_tx_line line = .skip := by
    unfold parse_tx_line
    by_cases h : (splitComma line).length < 11
    · rw [if_pos h]
    · rw [if_neg h, if_pos hn]
  refine ⟨hskip, ?_⟩
  intro rest acc rings htrim hne hbm hem
  simp only [parse_loop, htrim, hne, hbm, hem, hskip, Bool.false_eq_true, if_false]

/-- Concrete instantiation of `c7_malformed_field_count_skipped`: a
five-field line inside an open ring is dropped and parsing continues. -/
theorem c7_witness :
    parse_tx_line "a,b,c,d,e" = TxParse.skip ∧
    parse_loop ["a,b,c,d,e", "END LAUNDERING ATTEMPT"] (some ⟨0, "X", "", []⟩) []
      = parse_loop ["END LAUNDERING ATTEMPT"] (some ⟨0, "X", "", []⟩) [] := by
  have h := c7_malformed_field_count_skipped "a,b,c,d,e" (by decide)
  exact ⟨h.1, h.2 ["END LAUNDERING ATTEMPT"] ⟨0, "X", "", []⟩ []
    (by decide) (by decide) (by decide) (by decide)⟩

/-- C7 counterexample: parsing a transaction line inside a ring block *can*
fail.  This line splits into exactly 11 fields but its `amount_received`
field `xx` is not a number, so `float(...)` raises and the error escapes
`parse_patterns` — refuting the claim that no malformed line inside a ring
block causes an error. -/
theorem c7_counterexample_float_raises :
    parse_tx_line "2022/09/01 00:06,b1,a1,b2,a2,xx,USD,1.0,USD,ACH,0" = TxParse.err ∧
    (parse_patterns ["BEGIN LAUNDERING ATTEMPT - FAN-OUT",
      "2022/09/01 00:06,b1,a1,b2,a2,xx,USD,1.0,USD,ACH,0",
      "END LAUNDERING ATTEMPT"]).isOk = false := by
  exact ⟨by decide, by decide⟩

theorem getD_mem_of_lt {α : Type} (l : List α) (i : ℕ) (d : α) (h : i < l.length) :
    l.getD i d ∈ l := by
  have he : l.getD i d = l[i] := by
    rw [List.getD_eq_getElem?_getD, List.getElem?_eq_getElem h]
    rfl
  rw [he]
  exact List.getElem_mem h

theorem maxCount_cons (p : String × ℕ) (r : List (String × ℕ)) :
    maxCount (p :: r) = max p.2 (maxCount r) := rfl

theorem le_maxCount : ∀ (l : List (String × ℕ)), ∀ p ∈ l, p.2 ≤ maxCount l := by
  intro l
  induction l with
  | nil => intro p hp; simp at hp
  | cons q r ih =>
    intro p hp
    rw [maxCount_cons]
    rcases List.mem_cons.mp hp with rfl | hp
    · exact le_max_left _ _
    · exact le_trans (ih p hp) (le_max_right _ _)

theorem argmaxFirst_spec : ∀ (l : List (String × ℕ)), l ≠ [] →
    ∃ i, i < l.length ∧ (l.getD i ("", 0)).1 = argmaxFirst l ∧
      (l.getD i ("", 0)).2 = maxCount l ∧
      ∀ j, j < i → (l.getD j ("", 0)).2 < maxCount l := by
  intro l
  induction l with
  | nil => intro h; exact absurd rfl h
  | cons q r ih =>
    intro _
    obtain ⟨a, c⟩ := q
    unfold argmaxFirst
    by_cases hle : maxCount r ≤ c
    · rw [if_pos hle]
      refine ⟨0, by simp, rfl, ?_, by omega⟩
      rw [maxCount_cons]
      simpa using Nat.max_eq_left hle
    · rw [if_neg hle]
      have hr : r ≠ [] := by
        intro hnil
        subst hnil
        simp [maxCount] at hle
      rcases ih hr with ⟨i, hi, h1, h2, h3⟩
      have hmc : maxCount ((a, c) :: r) = maxCount r := by
        rw [maxCount_cons]
        omega
      refine ⟨i + 1, by simpa using hi, ?_, ?_, ?_⟩
      · simpa using h1
      · rw [hmc]
        simpa using h2
      · intro j hj
        rw [hmc]
        cases j with
        | zero => simpa using by omega
        | succ j' =>
          have := h3 j' (by omega)
          simpa using this

theorem countsOf_getD (txs : List TxRec) (j : ℕ)
    (hj : j < (firstDedup (occList txs)).length) :
    (countsOf txs).getD j ("", 0) =
      ((firstDedup (occList txs)).getD j "",
        (occList txs).count ((firstDedup (occList txs)).getD j "")) := by
  have h1 : (firstDedup (occList txs)).getD j "" = (firstDedup (occList txs))[j] := by
    rw [List.getD_eq_getElem?_getD, List.getElem?_eq_getElem hj]
    rfl
  have hj2 : j < (countsOf txs).length := by
    unfold countsOf
    simpa using hj
  have h2 : (countsOf txs).getD j ("", 0) = (countsOf txs)[j] := by
    rw [List.getD_eq_getElem?_getD, List.getElem?_eq_getElem hj2]
    rfl
  rw [h1, h2]
  unfold countsOf
  rw [List.getElem_map]

theorem countsOf_length (txs : List TxRec) :
    (countsOf txs).length = (firstDedup (occList txs)).length := by
  unfold countsOf
  simp

/-- C8: for a completed ring, `hub_account` is the endpoint account with
the greatest combined from/to occurrence count, ties broken in favour of
the first-encountered account (every account that enters the counter
before the hub has a strictly smaller count); a ring closed with zero
valid transactions has `hub_account = ""` and `temporal_span = []`. -/
theorem c8_hub_first_encountered_max (acc : RingAcc) :
    ((closeRing acc).num_transactions = 0 →
      (closeRing acc).hub_account = "" ∧ (closeRing acc).temporal_span = []) ∧
    (acc.transactions ≠ [] →
      (closeRing acc).hub_account ∈ occList acc.transactions ∧
      (∀ a : String, (occList acc.transactions).count a ≤
        (occList acc.transactions).count ((closeRing acc).hub_account)) ∧
      ∃ i, i < (firstDedup (occList acc.transactions)).length ∧
        (firstDedup (occList acc.transactions)).getD i "" = (closeRing acc).hub_account ∧
        ∀ j, j < i →
          (occList acc.transactions).count ((firstDedup (occList acc.transactions)).getD j "")
            < (occList acc.transactions).count ((closeRing acc).hub_account)) := by
  constructor
  · intro h0
    have htx : acc.transactions = [] := by
      have : acc.transactions.length = 0 := h0
      exact List.length_eq_zero.mp this
    constructor
    · show find_hub acc.transactions = ""
      rw [htx]
      rfl
    · show (if acc.transactions.isEmpty then ([] : List String) else _) = []
      rw [htx]
      rfl
  · intro hne
    have hocc : occList acc.transactions ≠ [] := by
      cases h : acc.transactions with
      | nil => exact absurd h hne
      | cons t r => simp [occList, h]
    have hkeys : firstDedup (occList acc.transactions) ≠ [] := by
      intro h
      rcases List.exists_mem_of_ne_nil _ hocc with ⟨x, hx⟩
      have := (mem_firstDedup x (occList acc.transactions)).mpr hx
      rw [h] at this
      simp at this
    have hcounts : countsOf acc.transactions ≠ [] := by
      intro h
      apply hkeys
      have := congrArg List.length h
      rw [countsOf_length] at this
      exact List.length_eq_zero.mp this
    rcases argmaxFirst_spec (countsOf acc.transactions) hcounts with ⟨i, hi, h1, h2, h3⟩
    have hilen : i < (firstDedup (occList acc.transactions)).length := by
      rw [← countsOf_length]
      exact hi
    have hkey := countsOf_getD acc.transactions i hilen
    have hhub : (closeRing acc).hub_account = argmaxFirst (countsOf acc.transactions) := rfl
    have hkeyi : (firstDedup (occList acc.transactions)).getD i "" = (closeRing acc).hub_account := by
      rw [hhub, ← h1, hkey]
    have hcnt : (occList acc.transactions).count ((closeRing acc).hub_account)
        = maxCount (countsOf acc.transactions) := by
      rw [← hkeyi, ← h2, hkey]
    refine ⟨?_, ?_, ?_⟩
    · rw [← hkeyi]
      exact (mem_firstDedup _ _).mp (getD_mem_of_lt _ i "" hilen)
    · intro a
      by_cases ha : a ∈ occList acc.transactions
      · have hk : a ∈ firstDedup (occList acc.transactions) := (mem_firstDedup a _).mpr ha
        have hpair : (a, (occList acc.transactions).count a) ∈ countsOf acc.transactions := by
          unfold countsOf
          exact List.mem_map.mpr ⟨a, hk, rfl⟩
        have := le_maxCount (countsOf acc.transactions) _ hpair
        rw [hcnt]
        exact this
      · rw [List.count_eq_zero.mpr ha]
        exact Nat.zero_le _
    · refine ⟨i, hilen, hkeyi, ?_⟩
      intro j hj
      have hjlen : j < (firstDedup (occList acc.transactions)).length := lt_trans hj hilen
      have hkj := countsOf_getD acc.transactions j hjlen
      have := h3 j hj
      rw [hkj] at this
      rw [hcnt]
      exact this

/-- Concrete instantiations of `c8_hub_first_encountered_max`: an empty
ring closes with hub `""` and span `[]`, and a two-transaction ring
(`A1→B`, `A1→C`) closes with hub `A1`, the first-encountered account of
maximal count. -/
theorem c8_witness :
    ((closeRing ⟨0, "FAN-OUT", "", []⟩).hub_account = "" ∧
      (closeRing ⟨0, "FAN-OUT", "", []⟩).temporal_span = []) ∧
    ((closeRing ⟨0, "FAN-OUT", "",
        [⟨"2022/09/01 00:06", "b1", "A1", "b2", "B", 10, "USD", 10, "USD", "ACH", 1⟩,
         ⟨"2022/09/01 00:07", "b1", "A1", "b3", "C", 10, "USD", 10, "USD", "ACH", 1⟩]⟩).hub_account
        ∈ occList [⟨"2022/09/01 00:06", "b1", "A1", "b2", "B", 10, "USD", 10, "USD", "ACH", 1⟩,
         ⟨"2022/09/01 00:07", "b1", "A1", "b3", "C", 10, "USD", 10, "USD", "ACH", 1⟩] ∧
      (∀ a : String, (occList [⟨"2022/09/01 00:06", "b1", "A1", "b2", "B", 10, "USD", 10, "USD", "ACH", 1⟩,
         ⟨"2022/09/01 00:07", "b1", "A1", "b3", "C", 10, "USD", 10, "USD", "ACH", 1⟩]).count a ≤
        (occList [⟨"2022/09/01 00:06", "b1", "A1", "b2", "B", 10, "USD", 10, "USD", "ACH", 1⟩,
         ⟨"2022/09/01 00:07", "b1", "A1", "b3", "C", 10, "USD", 10, "USD", "ACH", 1⟩]).count
          ((closeRing ⟨0, "FAN-OUT", "",
            [⟨"2022/09/01 00:06", "b1", "A1", "b2", "B", 10, "USD", 10, "USD", "ACH", 1⟩,
             ⟨"2022/09/01 00:07", "b1", "A1", "b3", "C", 10, "USD", 10, "USD", "ACH", 1⟩]⟩).hub_account)) ∧
      ∃ i, i < (firstDedup (occList [⟨"2022/09/01 00:06", "b1", "A1", "b2", "B", 10, "USD", 10, "USD", "ACH", 1⟩,
         ⟨"2022/09/01 00:07", "b1", "A1", "b3", "C", 10, "USD", 10, "USD", "ACH", 1⟩])).length ∧
        (firstDedup (occList [⟨"2022/09/01 00:06", "b1", "A1", "b2", "B", 10, "USD", 10, "USD", "ACH", 1⟩,
         ⟨"2022/09/01 00:07", "b1", "A1", "b3", "C", 10, "USD", 10, "USD", "ACH", 1⟩])).getD i ""
          = (closeRing ⟨0, "FAN-OUT", "",
            [⟨"2022/09/01 00:06", "b1", "A1", "b2", "B", 10, "USD", 10, "USD", "ACH", 1⟩,
             ⟨"2022/09/01 00:07", "b1", "A1", "b3", "C", 10, "USD", 10, "USD", "ACH", 1⟩]⟩).hub_account ∧
        ∀ j, j < i →
          (occList [⟨"2022/09/01 00:06", "b1", "A1", "b2", "B", 10, "USD", 10, "USD", "ACH", 1⟩,
           ⟨"2022/09/01 00:07", "b1", "A1", "b3", "C", 10, "USD", 10, "USD", "ACH", 1⟩]).count
            ((firstDedup (occList [⟨"2022/09/01 00:06", "b1", "A1", "b2", "B", 10, "USD", 10, "USD", "ACH", 1⟩,
             ⟨"2022/09/01 00:07", "b1", "A1", "b3", "C", 10, "USD", 10, "USD", "ACH", 1⟩])).getD j "")
            < (occList [⟨"2022/09/01 00:06", "b1", "A1", "b2", "B", 10, "USD", 10, "USD", "ACH", 1⟩,
             ⟨"2022/09/01 00:07", "b1", "A1", "b3", "C", 10, "USD", 10, "USD", "ACH", 1⟩]).count
              ((closeRing ⟨0, "FAN-OUT", "",
                [⟨"2022/09/01 00:06", "b1", "A1", "b2", "B", 10, "USD", 10, "USD", "ACH", 1⟩,
                 ⟨"2022/09/01 00:07", "b1", "A1", "b3", "C", 10, "USD", 10, "USD", "ACH", 1⟩]⟩).hub_account)) := by
  exact ⟨(c8_hub_first_encountered_max ⟨0, "FAN-OUT", "", []⟩).1 (by decide),
    (c8_hub_first_encountered_max ⟨0, "FAN-OUT", "",
      [⟨"2022/09/01 00:06", "b1", "A1", "b2", "B", 10, "USD", 10, "USD", "ACH", 1⟩,
       ⟨"2022/09/01 00:07", "b1", "A1", "b3", "C", 10, "USD", 10, "USD", "ACH", 1⟩]⟩).2 (by decide)⟩

theorem getT_modAt_dir_eq (l : List Trade) (i k : ℕ) (f : Trade → Trade) (v : String)
    (hf : ∀ t, (f t).direction = t.direction) (h : (getT l k).direction = v) :
    (getT (modAt l i f) k).direction = v := by
  rcases getT_modAt_cases l i k f with he | ⟨rfl, _, he⟩
  · rw [he]; exact h
  · rw [he, hf]; exact h

/-- Directions written by a treated pair: first index `BUY`, second `SELL`,
whatever the original directions were. -/
theorem processPair_dirs {σ : Type} (M : RngModel σ) (prob : ℚ)
    (st : List Trade × σ) (i j : ℕ) (hij : i ≠ j)
    (hi : i < st.1.length) (hj : j < st.1.length)
    (htreat : ¬ prob < (M.random st.2).1) :
    (getT (processPair M prob st (i, j)).1 i).direction = "BUY" ∧
    (getT (processPair M prob st (i, j)).1 j).direction = "SELL" := by
  unfold processPair
  lift_lets
  intro tr r s1 off s2 tr1 tr2 d1 tr3 tr4 tr5 vol1 u s3 tr6 tr7 tr8 tr9 trA
  split
  · rename_i hlt
    exact absurd hlt htreat
  · show (getT trA i).direction = "BUY" ∧ (getT trA j).direction = "SELL"
    have hlen2 : tr2.length = st.1.length := by
      show (modAt tr1 _ _).length = st.1.length
      rw [modAt_length]
      show (modAt tr _ _).length = st.1.length
      rw [modAt_length]
    have hlen3 : tr3.length = st.1.length := by
      show (modAt tr2 _ _).length = st.1.length
      rw [modAt_length, hlen2]
    have hlen4 : tr4.length = st.1.length := by
      show (modAt tr3 _ _).length = st.1.length
      rw [modAt_length, hlen3]
    have h3i : (getT tr3 i).direction = "BUY" := by
      show (getT (modAt tr2 (i, j).1 _) i).direction = "BUY"
      rw [getT_modAt_self _ _ _ (by rw [hlen2]; exact hi)]
    have h4i : (getT tr4 i).direction = "BUY" := by
      show (getT (modAt tr3 (i, j).2 _) i).direction = "BUY"
      rw [getT_modAt_ne _ _ _ _ (by simpa using hij.symm)]
      exact h3i
    have h4j : (getT tr4 j).direction = (if d1 = "BUY" then "SELL" else "BUY") := by
      show (getT (modAt tr3 (i, j).2 _) j).direction = _
      rw [getT_modAt_self _ _ _ (by rw [hlen3]; exact hj)]
    by_cases hd : d1 = "BUY"
    · have h4j' : (getT tr4 j).direction = "SELL" := by rw [h4j, if_pos hd]
      have h5 : tr5 = tr4 := by
        show dirFix tr4 (i, j).1 (i, j).2 = tr4
        unfold dirFix
        rw [if_neg]
        show ¬ (getT tr4 i).direction = (getT tr4 j).direction
        rw [h4i, h4j']
        decide
      constructor
      · apply getT_modAt_dir_eq
        · intro t; rfl
        apply getT_modAt_dir_eq
        · intro t; rfl
        apply getT_modAt_dir_eq
        · intro t; rfl
        apply getT_modAt_dir_eq
        · intro t; rfl
        apply getT_modAt_dir_eq
        · intro t; rfl
        rw [h5]
        exact h4i
      · apply getT_modAt_dir_eq
        · intro t; rfl
        apply getT_modAt_dir_eq
        · intro t; rfl
        apply getT_modAt_dir_eq
        · intro t; rfl
        apply getT_modAt_dir_eq
        · intro t; rfl
        apply getT_modAt_dir_eq
        · intro t; rfl
        rw [h5]
        exact h4j'
    · have h4j' : (getT tr4 j).direction = "BUY" := by rw [h4j, if_neg hd]
      have h5 : tr5 = modAt (modAt tr4 (i, j).2 (fun t => { t with direction := "SELL" }))
          (i, j).1 (fun t => { t with direction := "BUY" }) := by
        show dirFix tr4 (i, j).1 (i, j).2 = _
        unfold dirFix
        rw [if_pos]
        show (getT tr4 i).direction = (getT tr4 j).direction
        rw [h4i, h4j']
      constructor
      · apply getT_modAt_dir_eq
        · intro t; rfl
        apply getT_modAt_dir_eq
        · intro t; rfl
        apply getT_modAt_dir_eq
        · intro t; rfl
        apply getT_modAt_dir_eq
        · intro t; rfl
        apply getT_modAt_dir_eq
        · intro t; rfl
        rw [h5]
        rw [getT_modAt_self _ _ _ (by rw [modAt_length, hlen4]; exact hi)]
      · apply getT_modAt_dir_eq
        · intro t; rfl
        apply getT_modAt_dir_eq
        · intro t; rfl
        apply getT_modAt_dir_eq
        · intro t; rfl
        apply getT_modAt_dir_eq
        · intro t; rfl
        apply getT_modAt_dir_eq
        · intro t; rfl
        rw [h5]
        rw [getT_modAt_ne _ _ _ _ hij]
        rw [getT_modAt_self _ _ _ (by rw [hlen4]; exact hj)]

/-- C10: whenever a pair receives the Pattern A signature (the probability
roll does not skip it), the directions are assigned the same fixed way:
the first trade of the pair — the earlier trade in the sorted pair walk —
is set to `BUY` and the second to `SELL`, regardless of the trades'
original directions. -/
theorem c10_pair_directions {σ : Type} (M : RngModel σ) (prob : ℚ)
    (st : List Trade × σ) (i j : ℕ) (hij : i ≠ j)
    (hi : i < st.1.length) (hj : j < st.1.length)
    (htreat : ¬ prob < (M.random st.2).1) :
    (getT (processPair M prob st (i, j)).1 i).direction = "BUY" ∧
    (getT (processPair M prob st (i, j)).1 j).direction = "SELL" :=
  processPair_dirs M prob st i j hij hi hj htreat

/-- Concrete instantiation of `c10_pair_directions`: both trades start as
`SELL`, and the treated pair still comes out `(BUY, SELL)`. -/
theorem c10_witness :
    (getT (processPair unitRng 1
      ([⟨1, 100, "C_000001", "P_0001", "EURUSD", "SELL", 100, "US Dollar", false, false, false⟩,
        ⟨2, 200, "C_000001", "P_0001", "GBPJPY", "SELL", 100, "US Dollar", false, false, false⟩], ())
      (0, 1)).1 0).direction = "BUY" ∧
    (getT (processPair unitRng 1
      ([⟨1, 100, "C_000001", "P_0001", "EURUSD", "SELL", 100, "US Dollar", false, false, false⟩,
        ⟨2, 200, "C_000001", "P_0001", "GBPJPY", "SELL", 100, "US Dollar", false, false, false⟩], ())
      (0, 1)).1 1).direction = "SELL" := by
  exact c10_pair_directions unitRng 1
    ([⟨1, 100, "C_000001", "P_0001", "EURUSD", "SELL", 100, "US Dollar", false, false, false⟩,
      ⟨2, 200, "C_000001", "P_0001", "GBPJPY", "SELL", 100, "US Dollar", false, false, false⟩], ())
    0 1 (by decide) (by decide) (by decide) (by decide)

theorem getT_modAt_ts_eq (l : List Trade) (i k : ℕ) (f : Trade → Trade) (v : ℤ)
    (hf : ∀ t, (f t).timestamp = t.timestamp) (h : (getT l k).timestamp = v) :
    (getT (modAt l i f) k).timestamp = v := by
  rcases getT_modAt_cases l i k f with he | ⟨rfl, _, he⟩
  · rw [he]; exact h
  · rw [he, hf]; exact h

theorem getT_modAt_instr_eq (l : List Trade) (i k : ℕ) (f : Trade → Trade) (v : String)
    (hf : ∀ t, (f t).instrument = t.instrument) (h : (getT l k).instrument = v) :
    (getT (modAt l i f) k).instrument = v := by
  rcases getT_modAt_cases l i k f with he | ⟨rfl, _, he⟩
  · rw [he]; exact h
  · rw [he, hf]; exact h

theorem getT_modAt_oppo_eq (l : List Trade) (i k : ℕ) (f : Trade → Trade) (v : Bool)
    (hf : ∀ t, (f t).is_opposite_trade = t.is_opposite_trade)
    (h : (getT l k).is_opposite_trade = v) :
    (getT (modAt l i f) k).is_opposite_trade = v := by
  rcases getT_modAt_cases l i k f with he | ⟨rfl, _, he⟩
  · rw [he]; exact h
  · rw [he, hf]; exact h

theorem getT_dirFix_ts_eq (l : List Trade) (i j k : ℕ) (v : ℤ)
    (h : (getT l k).timestamp = v) : (getT (dirFix l i j) k).timestamp = v := by
  unfold dirFix
  split
  · apply getT_modAt_ts_eq
    · intro t; rfl
    apply getT_modAt_ts_eq
    · intro t; rfl
    exact h
  · exact h

theorem getT_dirFix_instr_eq (l : List Trade) (i j k : ℕ) (v : String)
    (h : (getT l k).instrument = v) : (getT (dirFix l i j) k).instrument = v := by
  unfold dirFix
  split
  · apply getT_modAt_instr_eq
    · intro t; rfl
    apply getT_modAt_instr_eq
    · intro t; rfl
    exact h
  · exact h

theorem getT_dirFix_oppo_eq (l : List Trade) (i j k : ℕ) (v : Bool)
    (h : (getT l k).is_opposite_trade = v) :
    (getT (dirFix l i j) k).is_opposite_trade = v := by
  unfold dirFix
  split
  · apply getT_modAt_oppo_eq
    · intro t; rfl
    apply getT_modAt_oppo_eq
    · intro t; rfl
    exact h
  · exact h

theorem getT_dirFix_other (l : List Trade) (i j k : ℕ) (hik : i ≠ k) (hjk : j ≠ k) :
    getT (dirFix l i j) k = getT l k := by
  unfold dirFix
  split
  · rw [getT_modAt_ne _ _ _ _ hik, getT_modAt_ne _ _ _ _ hjk]
  · rfl

theorem processPair_other {σ : Type} (M : RngModel σ) (prob : ℚ)
    (st : List Trade × σ) (i j k : ℕ) (hik : i ≠ k) (hjk : j ≠ k) :
    getT (processPair M prob st (i, j)).1 k = getT st.1 k := by
  unfold processPair
  lift_lets
  intro tr r s1 off s2 tr1 tr2 d1 tr3 tr4 tr5 vol1 u s3 tr6 tr7 tr8 tr9 trA
  split
  · rfl
  · show getT trA k = getT st.1 k
    rw [getT_modAt_ne _ _ _ _ hjk, getT_modAt_ne _ _ _ _ hik,
      getT_modAt_ne _ _ _ _ hjk, getT_modAt_ne _ _ _ _ hik,
      getT_modAt_ne _ _ _ _ hjk, getT_dirFix_other _ _ _ _ hik hjk,
      getT_modAt_ne _ _ _ _ hjk, getT_modAt_ne _ _ _ _ hik,
      getT_modAt_ne _ _ _ _ hjk, getT_modAt_ne _ _ _ _ hjk]

theorem processPair_treated_i {σ : Type} (M : RngModel σ) (prob : ℚ)
    (st : List Trade × σ) (i j : ℕ) (hij : i ≠ j) (hi : i < st.1.length)
    (htreat : ¬ prob < (M.random st.2).1) :
    (getT (processPair M prob st (i, j)).1 i).timestamp = (getT st.1 i).timestamp ∧
    (getT (processPair M prob st (i, j)).1 i).instrument = (getT st.1 i).instrument ∧
    (getT (processPair M prob st (i, j)).1 i).is_opposite_trade = true := by
  unfold processPair
  lift_lets
  intro tr r s1 off s2 tr1 tr2 d1 tr3 tr4 tr5 vol1 u s3 tr6 tr7 tr8 tr9 trA
  split
  · rename_i hlt
    exact absurd hlt htreat
  · have hlen1 : tr1.length = st.1.length := by
      show (modAt tr _ _).length = st.1.length
      rw [modAt_length]
    have hlen2 : tr2.length = st.1.length := by
      show (modAt tr1 _ _).length = st.1.length
      rw [modAt_length, hlen1]
    have hlen3 : tr3.length = st.1.length := by
      show (modAt tr2 _ _).length = st.1.length
      rw [modAt_length, hlen2]
    have hlen4 : tr4.length = st.1.length := by
      show (modAt tr3 _ _).length = st.1.length
      rw [modAt_length, hlen3]
    have hlen5 : tr5.length = st.1.length := by
      show (dirFix tr4 _ _).length = st.1.length
      rw [dirFix_length, hlen4]
    have hlen6 : tr6.length = st.1.length := by
      show (modAt tr5 _ _).length = st.1.length
      rw [modAt_length, hlen5]
    refine ⟨?_, ?_, ?_⟩
    · show (getT trA i).timestamp = (getT st.1 i).timestamp
      apply getT_modAt_ts_eq
      · intro t; rfl
      apply getT_modAt_ts_eq
      · intro t; rfl
      apply getT_modAt_ts_eq
      · intro t; rfl
      apply getT_modAt_ts_eq
      · intro t; rfl
      apply getT_modAt_ts_eq
      · intro t; rfl
      apply getT_dirFix_ts_eq
      apply getT_modAt_ts_eq
      · intro t; rfl
      apply getT_modAt_ts_eq
      · intro t; rfl
      apply getT_modAt_ts_eq
      · intro t; rfl
      rw [getT_modAt_ne _ _ _ _ (Ne.symm hij)]
    · show (getT trA i).instrument = (getT st.1 i).instrument
      apply getT_modAt_instr_eq
      · intro t; rfl
      apply getT_modAt_instr_eq
      · intro t; rfl
      apply getT_modAt_instr_eq
      · intro t; rfl
      apply getT_modAt_instr_eq
      · intro t; rfl
      apply getT_modAt_instr_eq
      · intro t; rfl
      apply getT_dirFix_instr_eq
      apply getT_modAt_instr_eq
      · intro t; rfl
      apply getT_modAt_instr_eq
      · intro t; rfl
      rw [getT_modAt_ne _ _ _ _ (Ne.symm hij), getT_modAt_ne _ _ _ _ (Ne.symm hij)]
    · show (getT trA i).is_opposite_trade = true
      apply getT_modAt_oppo_eq
      · intro t; rfl
      apply getT_modAt_oppo_eq
      · intro t; rfl
      rw [getT_modAt_ne _ _ _ _ (Ne.symm hij)]
      rw [getT_modAt_self _ _ _ (by rw [hlen6]; exact hi)]

theorem processPair_treated_j {σ : Type} (M : RngModel σ) (prob : ℚ)
    (st : List Trade × σ) (i j : ℕ) (hij : i ≠ j) (hj : j < st.1.length)
    (htreat : ¬ prob < (M.random st.2).1) :
    (getT (processPair M prob st (i, j)).1 j).timestamp
      = (getT st.1 i).timestamp + (M.intRange 1 60 (M.random st.2).2).1 ∧
    (getT (processPair M prob st (i, j)).1 j).instrument = (getT st.1 i).instrument ∧
    (getT (processPair M prob st (i, j)).1 j).is_opposite_trade = true := by
  unfold processPair
  lift_lets
  intro tr r s1 off s2 tr1 tr2 d1 tr3 tr4 tr5 vol1 u s3 tr6 tr7 tr8 tr9 trA
  split
  · rename_i hlt
    exact absurd hlt htreat
  · have hlen1 : tr1.length = st.1.length := by
      show (modAt tr _ _).length = st.1.length
      rw [modAt_length]
    have hlen2 : tr2.length = st.1.length := by
      show (modAt tr1 _ _).length = st.1.length
      rw [modAt_length, hlen1]
    have hlen3 : tr3.length = st.1.length := by
      show (modAt tr2 _ _).length = st.1.length
      rw [modAt_length, hlen2]
    have hlen4 : tr4.length = st.1.length := by
      show (modAt tr3 _ _).length = st.1.length
      rw [modAt_length, hlen3]
    have hlen5 : tr5.length = st.1.length := by
      show (dirFix tr4 _ _).length = st.1.length
      rw [dirFix_length, hlen4]
    have hlen6 : tr6.length = st.1.length := by
      show (modAt tr5 _ _).length = st.1.length
      rw [modAt_length, hlen5]
    have hlen7 : tr7.length = st.1.length := by
      show (modAt tr6 _ _).length = st.1.length
      rw [modAt_length, hlen6]
    refine ⟨?_, ?_, ?_⟩
    · show (getT trA j).timestamp = (getT st.1 i).timestamp + off
      apply getT_modAt_ts_eq
      · intro t; rfl
      apply getT_modAt_ts_eq
      · intro t; rfl
      apply getT_modAt_ts_eq
      · intro t; rfl
      apply getT_modAt_ts_eq
      · intro t; rfl
      apply getT_modAt_ts_eq
      · intro t; rfl
      apply getT_dirFix_ts_eq
      apply getT_modAt_ts_eq
      · intro t; rfl
      apply getT_modAt_ts_eq
      · intro t; rfl
      apply getT_modAt_ts_eq
      · intro t; rfl
      rw [getT_modAt_self _ _ _ (by exact hj)]
    · show (getT trA j).instrument = (getT st.1 i).instrument
      apply getT_modAt_instr_eq
      · intro t; rfl
      apply getT_modAt_instr_eq
      · intro t; rfl
      apply getT_modAt_instr_eq
      · intro t; rfl
      apply getT_modAt_instr_eq
      · intro t; rfl
      apply getT_modAt_instr_eq
      · intro t; rfl
      apply getT_dirFix_instr_eq
      apply getT_modAt_instr_eq
      · intro t; rfl
      apply getT_modAt_instr_eq
      · intro t; rfl
      rw [getT_modAt_self _ _ _ (by rw [hlen1]; exact hj)]
      show (getT tr1 i).instrument = (getT st.1 i).instrument
      rw [getT_modAt_ne _ _ _ _ (Ne.symm hij)]
    · show (getT trA j).is_opposite_trade = true
      apply getT_modAt_oppo_eq
      · intro t; rfl
      apply getT_modAt_oppo_eq
      · intro t; rfl
      rw [getT_modAt_self _ _ _ (by rw [hlen7]; exact hj)]

theorem sortLe_sorted_fix {α : Type} (le : α → α → Bool) :
    ∀ (l : List α), List.Pairwise (fun a b => le a b = true) l → sortLe le l = l := by
  intro l
  induction l with
  | nil => intro _; rfl
  | cons a r ih =>
    intro hp
    rw [List.pairwise_cons] at hp
    unfold sortLe
    rw [ih hp.2]
    cases r with
    | nil => rfl
    | cons b r2 =>
      unfold insertLe
      rw [if_pos (hp.1 b (List.mem_cons_self b r2))]

theorem getT_eq_get (l : List Trade) (n : Fin l.length) : l.get n = getT l n.1 := by
  rw [getT_eq_getElem l n.1 n.2]
  simp

set_option maxHeartbeats 2000000 in
/-- C5 (amended): with the injection probability forced to 1.0, a
fraudulent partner holding exactly 4 trades at pairwise distinct
timestamps has BOTH consecutive sorted pairs (positions 0,1 and 2,3)
treated, so exactly 4 — not 2 — of its trades end with
`is_opposite_trade = true`; within each treated pair the two timestamps
differ by at least 1 and at most the configured maximum offset of 60
time units, the instruments are equal, and the directions are strictly
opposite (earlier `BUY`, later `SELL`). -/
theorem c5_prob_one_marks_all_four {σ : Type} (M : RngModel σ) (hWF : RngWF M)
    (partners : List Partner) (pid : String) (t0 t1 t2 t3 : Trade) (s : σ)
    (hfp : (partners.filter (fun p => p.is_fraudulent)).map (fun p => p.partner_id) = [pid])
    (hp0 : t0.partner_id = pid) (hp1 : t1.partner_id = pid)
    (hp2 : t2.partner_id = pid) (hp3 : t3.partner_id = pid)
    (h01 : t0.timestamp < t1.timestamp) (h12 : t1.timestamp < t2.timestamp)
    (h23 : t2.timestamp < t3.timestamp) :
    ((inject_opposite_trading M 1 partners [t0, t1, t2, t3] s).1).length = 4 ∧
    (((inject_opposite_trading M 1 partners [t0, t1, t2, t3] s).1).filter
      (fun t => t.is_opposite_trade)).length = 4 ∧
    (getT (inject_opposite_trading M 1 partners [t0, t1, t2, t3] s).1 0).direction = "BUY" ∧
    (getT (inject_opposite_trading M 1 partners [t0, t1, t2, t3] s).1 1).direction = "SELL" ∧
    (getT (inject_opposite_trading M 1 partners [t0, t1, t2, t3] s).1 2).direction = "BUY" ∧
    (getT (inject_opposite_trading M 1 partners [t0, t1, t2, t3] s).1 3).direction = "SELL" ∧
    (getT (inject_opposite_trading M 1 partners [t0, t1, t2, t3] s).1 0).instrument
      = (getT (inject_opposite_trading M 1 partners [t0, t1, t2, t3] s).1 1).instrument ∧
    (getT (inject_opposite_trading M 1 partners [t0, t1, t2, t3] s).1 2).instrument
      = (getT (inject_opposite_trading M 1 partners [t0, t1, t2, t3] s).1 3).instrument ∧
    (getT (inject_opposite_trading M 1 partners [t0, t1, t2, t3] s).1 0).timestamp
      < (getT (inject_opposite_trading M 1 partners [t0, t1, t2, t3] s).1 1).timestamp ∧
    (getT (inject_opposite_trading M 1 partners [t0, t1, t2, t3] s).1 1).timestamp
      - (getT (inject_opposite_trading M 1 partners [t0, t1, t2, t3] s).1 0).timestamp ≤ 60 ∧
    (getT (inject_opposite_trading M 1 partners [t0, t1, t2, t3] s).1 2).timestamp
      < (getT (inject_opposite_trading M 1 partners [t0, t1, t2, t3] s).1 3).timestamp ∧
    (getT (inject_opposite_trading M 1 partners [t0, t1, t2, t3] s).1 3).timestamp
      - (getT (inject_opposite_trading M 1 partners [t0, t1, t2, t3] s).1 2).timestamp ≤ 60 := by
  have hg0 : getT (List.map (fun t => { t with is_opposite_trade := false }) [t0, t1, t2, t3]) 0
      = { t0 with is_opposite_trade := false } := by rw [getT_map_reset]; rfl
  have hg1 : getT (List.map (fun t => { t with is_opposite_trade := false }) [t0, t1, t2, t3]) 1
      = { t1 with is_opposite_trade := false } := by rw [getT_map_reset]; rfl
  have hg2 : getT (List.map (fun t => { t with is_opposite_trade := false }) [t0, t1, t2, t3]) 2
      = { t2 with is_opposite_trade := false } := by rw [getT_map_reset]; rfl
  have hg3 : getT (List.map (fun t => { t with is_opposite_trade := false }) [t0, t1, t2, t3]) 3
      = { t3 with is_opposite_trade := false } := by rw [getT_map_reset]; rfl
  have hpp : partner_pairs
      (List.map (fun t => { t with is_opposite_trade := false }) [t0, t1, t2, t3]) pid
      = [(0, 1), (2, 3)] := by
    simp only [partner_pairs]
    have hidx : (List.range (List.map (fun t => { t with is_opposite_trade := false })
        [t0, t1, t2, t3]).length).filter
        (fun i => (getT (List.map (fun t => { t with is_opposite_trade := false })
          [t0, t1, t2, t3]) i).partner_id == pid) = [0, 1, 2, 3] := by
      show ([0, 1, 2, 3].filter _) = [0, 1, 2, 3]
      simp only [List.filter_cons, List.filter_nil, hg0, hg1, hg2, hg3]
      simp [hp0, hp1, hp2, hp3]
    rw [hidx]
    have hs : sortLe (fun i j =>
        decide ((getT (List.map (fun t => { t with is_opposite_trade := false })
          [t0, t1, t2, t3]) i).timestamp ≤
          (getT (List.map (fun t => { t with is_opposite_trade := false })
            [t0, t1, t2, t3]) j).timestamp)) [0, 1, 2, 3] = [0, 1, 2, 3] := by
      apply sortLe_sorted_fix
      refine List.Pairwise.cons ?_ (List.Pairwise.cons ?_ (List.Pairwise.cons ?_
        (List.pairwise_singleton _ _)))
      · intro b hb
        rcases List.mem_cons.mp hb with rfl | hb
        · simp only [hg0, hg1, decide_eq_true_eq]; omega
        rcases List.mem_cons.mp hb with rfl | hb
        · simp only [hg0, hg2, decide_eq_true_eq]; omega
        rcases List.mem_cons.mp hb with rfl | hb
        · simp only [hg0, hg3, decide_eq_true_eq]; omega
        · simp at hb
      · intro b hb
        rcases List.mem_cons.mp hb with rfl | hb
        · simp only [hg1, hg2, decide_eq_true_eq]; omega
        rcases List.mem_cons.mp hb with rfl | hb
        · simp only [hg1, hg3, decide_eq_true_eq]; omega
        · simp at hb
      · intro b hb
        rcases List.mem_cons.mp hb with rfl | hb
        · simp only [hg2, hg3, decide_eq_true_eq]; omega
        · simp at hb
    rw [hs]
    rfl
  have hres : (inject_opposite_trading M 1 partners [t0, t1, t2, t3] s)
      = processPair M 1 (processPair M 1
          ((List.map (fun t => { t with is_opposite_trade := false }) [t0, t1, t2, t3]), s)
          (0, 1)) (2, 3) := by
    unfold inject_opposite_trading
    simp only [hfp, List.foldl_cons, List.foldl_nil, hpp]
  rw [hres]
  have hlen0 : ((List.map (fun t => { t with is_opposite_trade := false })
      [t0, t1, t2, t3]) : List Trade).length = 4 := by simp
  have htreat1 : ¬ (1 : ℚ) < (M.random s).1 := by
    intro hcon
    have := hWF.random_lt_one s
    linarith
  have hA1len : ((processPair M 1
      ((List.map (fun t => { t with is_opposite_trade := false }) [t0, t1, t2, t3]), s)
      (0, 1)).1).length = 4 := by
    rw [processPair_length]
    exact hlen0
  have htreat2 : ¬ (1 : ℚ) < (M.random (processPair M 1
      ((List.map (fun t => { t with is_opposite_trade := false }) [t0, t1, t2, t3]), s)
      (0, 1)).2).1 := by
    intro hcon
    have := hWF.random_lt_one (processPair M 1
      ((List.map (fun t => { t with is_opposite_trade := false }) [t0, t1, t2, t3]), s)
      (0, 1)).2
    linarith
  have hAi := processPair_treated_i M 1
    ((List.map (fun t => { t with is_opposite_trade := false }) [t0, t1, t2, t3]), s)
    0 1 (by decide) (by rw [hlen0]; omega) htreat1
  have hAj := processPair_treated_j M 1
    ((List.map (fun t => { t with is_opposite_trade := false }) [t0, t1, t2, t3]), s)
    0 1 (by decide) (by rw [hlen0]; omega) htreat1
  have hAdirs := processPair_dirs M 1
    ((List.map (fun t => { t with is_opposite_trade := false }) [t0, t1, t2, t3]), s)
    0 1 (by decide) (by rw [hlen0]; omega) (by rw [hlen0]; omega) htreat1
  have hA2 := processPair_other M 1
    ((List.map (fun t => { t with is_opposite_trade := false }) [t0, t1, t2, t3]), s)
    0 1 2 (by decide) (by decide)
  have hA3 := processPair_other M 1
    ((List.map (fun t => { t with is_opposite_trade := false }) [t0, t1, t2, t3]), s)
    0 1 3 (by decide) (by decide)
  have hB0 := processPair_other M 1 (processPair M 1
    ((List.map (fun t => { t with is_opposite_trade := false }) [t0, t1, t2, t3]), s)
    (0, 1)) 2 3 0 (by decide) (by decide)
  have hB1 := processPair_other M 1 (processPair M 1
    ((List.map (fun t => { t with is_opposite_trade := false }) [t0, t1, t2, t3]), s)
    (0, 1)) 2 3 1 (by decide) (by decide)
  have hBi := processPair_treated_i M 1 (processPair M 1
    ((List.map (fun t => { t with is_opposite_trade := false }) [t0, t1, t2, t3]), s)
    (0, 1)) 2 3 (by decide) (by rw [hA1len]; omega) (by exact htreat2)
  have hBj := processPair_treated_j M 1 (processPair M 1
    ((List.map (fun t => { t with is_opposite_trade := false }) [t0, t1, t2, t3]), s)
    (0, 1)) 2 3 (by decide) (by rw [hA1len]; omega) (by exact htreat2)
  have hBdirs := processPair_dirs M 1 (processPair M 1
    ((List.map (fun t => { t with is_opposite_trade := false }) [t0, t1, t2, t3]), s)
    (0, 1)) 2 3 (by decide) (by rw [hA1len]; omega) (by rw [hA1len]; omega) (by exact htreat2)
  have hreslen : ((processPair M 1 (processPair M 1
      ((List.map (fun t => { t with is_opposite_trade := false }) [t0, t1, t2, t3]), s)
      (0, 1)) (2, 3)).1).length = 4 := by
    rw [processPair_length]
    exact hA1len
  have hoff1a := hWF.intRange_lb 1 60 (M.random
    (((List.map (fun t => { t with is_opposite_trade := false }) [t0, t1, t2, t3] : List Trade),
      s)).2).2 (by norm_num)
  have hoff1b := hWF.intRange_ub 1 60 (M.random
    (((List.map (fun t => { t with is_opposite_trade := false }) [t0, t1, t2, t3] : List Trade),
      s)).2).2 (by norm_num)
  have hoff2a := hWF.intRange_lb 1 60 (M.random (processPair M 1
    ((List.map (fun t => { t with is_opposite_trade := false }) [t0, t1, t2, t3]), s)
    (0, 1)).2).2 (by norm_num)
  have hoff2b := hWF.intRange_ub 1 60 (M.random (processPair M 1
    ((List.map (fun t => { t with is_opposite_trade := false }) [t0, t1, t2, t3]), s)
    (0, 1)).2).2 (by norm_num)
  have hflag0 : (getT (processPair M 1 (processPair M 1
      ((List.map (fun t => { t with is_opposite_trade := false }) [t0, t1, t2, t3]), s)
      (0, 1)) (2, 3)).1 0).is_opposite_trade = true := by
    rw [hB0]; exact hAi.2.2
  have hflag1 : (getT (processPair M 1 (processPair M 1
      ((List.map (fun t => { t with is_opposite_trade := false }) [t0, t1, t2, t3]), s)
      (0, 1)) (2, 3)).1 1).is_opposite_trade = true := by
    rw [hB1]; exact hAj.2.2
  refine ⟨hreslen, ?_, ?_, ?_, hBdirs.1, hBdirs.2, ?_, ?_, ?_, ?_, ?_, ?_⟩
  · rw [List.filter_eq_self.mpr, hreslen]
    intro t ht
    rcases List.mem_iff_get.mp ht with ⟨n, rfl⟩
    rw [getT_eq_get]
    have hn : n.1 < 4 := by
      have := n.2
      omega
    have h4 : n.1 = 0 ∨ n.1 = 1 ∨ n.1 = 2 ∨ n.1 = 3 := by omega
    rcases h4 with h | h | h | h <;> rw [h]
    · exact hflag0
    · exact hflag1
    · exact hBi.2.2
    · exact hBj.2.2
  · rw [hB0]; exact hAdirs.1
  · rw [hB1]; exact hAdirs.2
  · rw [hB0, hB1, hAi.2.1, hAj.2.1]
  · rw [hBi.2.1, hBj.2.1]
  · rw [hB0, hB1, hAi.1, hAj.1]
    omega
  · rw [hB0, hB1, hAi.1, hAj.1]
    omega
  · rw [hBi.1, hBj.1]
    omega
  · rw [hBi.1, hBj.1]
    omega

/-- C5 witness: the amended pairing theorem instantiated at the degenerate
generator, one fraudulent partner and four concrete trades at distinct
timestamps: all four rows end up marked. -/
theorem c5_witness :
    (((inject_opposite_trading unitRng 1 [⟨"P_0001", true⟩]
        [⟨1, 100, "C_000001", "P_0001", "EURUSD", "SELL", 100, "US Dollar", false, false, false⟩,
         ⟨2, 110, "C_000002", "P_0001", "GBPJPY", "SELL", 100, "US Dollar", false, false, false⟩,
         ⟨3, 200, "C_000003", "P_0001", "USDJPY", "SELL", 100, "US Dollar", false, false, false⟩,
         ⟨4, 210, "C_000004", "P_0001", "XAUUSD", "SELL", 100, "US Dollar", false, false, false⟩]
        ()).1).filter (fun t => t.is_opposite_trade)).length = 4 :=
  (c5_prob_one_marks_all_four unitRng unitRng_wf [⟨"P_0001", true⟩] "P_0001"
    ⟨1, 100, "C_000001", "P_0001", "EURUSD", "SELL", 100, "US Dollar", false, false, false⟩
    ⟨2, 110, "C_000002", "P_0001", "GBPJPY", "SELL", 100, "US Dollar", false, false, false⟩
    ⟨3, 200, "C_000003", "P_0001", "USDJPY", "SELL", 100, "US Dollar", false, false, false⟩
    ⟨4, 210, "C_000004", "P_0001", "XAUUSD", "SELL", 100, "US Dollar", false, false, false⟩
    () (by decide) rfl rfl rfl rfl (by decide) (by decide) (by decide)).2.1

/-- C5 counterexample to the literal claim: with the injection probability
forced to 1 and a fraudulent partner holding four trades at distinct
timestamps, `inject_opposite_trading` marks all four rows
`is_opposite_trade`, not exactly two — the loop treats every consecutive
pair, so four trades form two treated pairs. -/
theorem c5_counterexample_four_not_two :
    (((inject_opposite_trading unitRng 1 [⟨"P_0001", true⟩] c5Trades ()).1).filter
      (fun t => t.is_opposite_trade)).length = 4 ∧
    (((inject_opposite_trading unitRng 1 [⟨"P_0001", true⟩] c5Trades ()).1).filter
      (fun t => t.is_opposite_trade)).length ≠ 2 := by
  constructor
  · decide
  · decide

theorem inject_bonus_eq {σ : Type} (M : RngModel σ)
    (sampleFn : List Partner → ℕ → List Partner) (partners : List Partner)
    (trades : List Trade) (s : σ)
    (hne : (partners.filter (fun q => q.is_fraudulent)).isEmpty = false) :
    inject_bonus_abuse M sampleFn partners trades s =
      (trades ++ ((sampleFn (partners.filter (fun q => q.is_fraudulent))
          (max 1 (3 * (partners.filter (fun q => q.is_fraudulent)).length / 10))).foldl
          (bonusStep M (partner_clients trades)) ⟨[], [], trades.length, 0, s⟩).nt,
        ((sampleFn (partners.filter (fun q => q.is_fraudulent))
          (max 1 (3 * (partners.filter (fun q => q.is_fraudulent)).length / 10))).foldl
          (bonusStep M (partner_clients trades)) ⟨[], [], trades.length, 0, s⟩).nw,
        ((sampleFn (partners.filter (fun q => q.is_fraudulent))
          (max 1 (3 * (partners.filter (fun q => q.is_fraudulent)).length / 10))).foldl
          (bonusStep M (partner_clients trades)) ⟨[], [], trades.length, 0, s⟩).rng) := by
  unfold inject_bonus_abuse
  lift_lets
  intro fraudPartners nAbuse abusePartners stF
  split
  · rename_i hemp
    have he : fraudPartners = partners.filter (fun q => q.is_fraudulent) := rfl
    rw [he, hne] at hemp
    exact Bool.noConfusion hemp
  · rfl

/-- C6 (amended): for a partner picked by the bonus-abuse sample whose trade
history shows exactly 12 distinct clients, `inject_bonus_abuse` appends `k`
new Trade rows and `k` new Withdrawal rows for that partner where
`k = min(integers(10, 16), 12)` lies in `[10, 12]` — not necessarily exactly
12 — all flagged `is_bonus_abuse = true`, with every new trade id strictly
greater than every pre-injection id (hence collision-free) and the new ids
pairwise distinct. -/
theorem c6_bonus_rows_ten_to_twelve {σ : Type} (M : RngModel σ) (hWF : RngWF M)
    (sampleFn : List Partner → ℕ → List Partner) (partners : List Partner)
    (trades : List Trade) (s : σ) (p : Partner)
    (hne : (partners.filter (fun q => q.is_fraudulent)).isEmpty = false)
    (hp : p ∈ sampleFn (partners.filter (fun q => q.is_fraudulent))
      (max 1 (3 * (partners.filter (fun q => q.is_fraudulent)).length / 10)))
    (hpw : (sampleFn (partners.filter (fun q => q.is_fraudulent))
      (max 1 (3 * (partners.filter (fun q => q.is_fraudulent)).length / 10))).Pairwise
      (fun a b => a.partner_id ≠ b.partner_id))
    (hid : ∀ t ∈ trades, t.trade_id ≤ trades.length)
    (hcl : (firstDedup (partner_clients trades p.partner_id)).length = 12) :
    ∃ k nt,
      10 ≤ k ∧ k ≤ 12 ∧
      (inject_bonus_abuse M sampleFn partners trades s).1 = trades ++ nt ∧
      (nt.filter (fun t => t.partner_id == p.partner_id)).length = k ∧
      (((inject_bonus_abuse M sampleFn partners trades s).2.1).filter
        (fun w => w.partner_id == p.partner_id)).length = k ∧
      (∀ t ∈ nt, t.is_bonus_abuse = true ∧ t.is_fraudulent = true ∧
        ∀ t0 ∈ trades, t0.trade_id < t.trade_id) ∧
      (∀ w ∈ (inject_bonus_abuse M sampleFn partners trades s).2.1,
        w.is_bonus_abuse = true) ∧
      (idsOf nt).Pairwise (· < ·) := by
  rw [inject_bonus_eq M sampleFn partners trades s hne]
  rcases bonusFold_count M hWF (partner_clients trades) p
    (sampleFn (partners.filter (fun q => q.is_fraudulent))
      (max 1 (3 * (partners.filter (fun q => q.is_fraudulent)).length / 10)))
    ⟨[], [], trades.length, 0, s⟩ hp hpw hcl with ⟨k, hk1, hk2, c1, c2⟩
  have hinv := bonusFold_inv M (partner_clients trades) trades.length
    (sampleFn (partners.filter (fun q => q.is_fraudulent))
      (max 1 (3 * (partners.filter (fun q => q.is_fraudulent)).length / 10)))
    ⟨[], [], trades.length, 0, s⟩ (le_refl _) (by simp) (by simp) (by simp [idsOf])
  refine ⟨k, _, hk1, hk2, rfl, ?_, ?_, ?_, ?_, ?_⟩
  · simpa using c1
  · simpa using c2
  · intro t ht
    rcases hinv.2.1 t ht with ⟨a1, a2, a3, _⟩
    refine ⟨a1, a2, ?_⟩
    intro t0 ht0
    have := hid t0 ht0
    omega
  · intro w hw
    exact hinv.2.2.1 w hw
  · exact hinv.2.2.2

/-- C6 witness: the amended theorem at the degenerate generator, prefix
sampling, one fraudulent partner and twelve trades with twelve distinct
clients. -/
theorem c6_witness :
    ∃ k nt,
      10 ≤ k ∧ k ≤ 12 ∧
      (inject_bonus_abuse unitRng (fun l n => l.take n) [⟨"P_0001", true⟩] c6Trades ()).1
        = c6Trades ++ nt ∧
      (nt.filter (fun t => t.partner_id == (⟨"P_0001", true⟩ : Partner).partner_id)).length = k ∧
      (((inject_bonus_abuse unitRng (fun l n => l.take n) [⟨"P_0001", true⟩] c6Trades ()).2.1).filter
        (fun w => w.partner_id == (⟨"P_0001", true⟩ : Partner).partner_id)).length = k ∧
      (∀ t ∈ nt, t.is_bonus_abuse = true ∧ t.is_fraudulent = true ∧
        ∀ t0 ∈ c6Trades, t0.trade_id < t.trade_id) ∧
      (∀ w ∈ (inject_bonus_abuse unitRng (fun l n => l.take n) [⟨"P_0001", true⟩] c6Trades ()).2.1,
        w.is_bonus_abuse = true) ∧
      (idsOf nt).Pairwise (· < ·) :=
  c6_bonus_rows_ten_to_twelve unitRng unitRng_wf (fun l n => l.take n) [⟨"P_0001", true⟩]
    c6Trades () ⟨"P_0001", true⟩ (by decide) (by decide) (by decide) (by decide) (by decide)

/-- C6 counterexample to the literal claim: for a selected partner with
exactly 12 distinct clients the degenerate generator draws
`integers(10, 16) = 10`, so only 10 bonus-abuse Trade rows and 10
Withdrawal rows are appended, not exactly 12. -/
theorem c6_counterexample_ten_rows :
    (firstDedup (partner_clients c6Trades "P_0001")).length = 12 ∧
    ((((inject_bonus_abuse unitRng (fun l n => l.take n) [⟨"P_0001", true⟩] c6Trades ()).1).filter
      (fun t => t.is_bonus_abuse)).length = 10) ∧
    (((inject_bonus_abuse unitRng (fun l n => l.take n) [⟨"P_0001", true⟩] c6Trades ()).2.1).length
      = 10) ∧
    (10 : ℕ) ≠ 12 := by
  refine ⟨by decide, by decide, by decide, by decide⟩
